import Mathlib

/-!
Verification of the ASN.1 detect-keyword option parser
(`src/rust/src/asn1/parse_rules.rs`).

The Rust source builds the parser from `nom` combinators over `&str`.
We shallowly embed it over `List Char`: every combinator returns either
an error (the unconsumed input it failed at, plus a nom `ErrorKind`) or
the remaining input paired with the parsed value, exactly as nom's
`IResult<&str, T>` does for complete (non-streaming) parsers.
-/

/-- The nom error kinds that can arise in this module, plus `noFuel`,
a modelling artifact for the fuel-indexed loop that is proven
unreachable (`asn1_loopF_fuel_irrelevant`). `eof` models
`ErrorKind::Eof`, `verify` models `ErrorKind::Verify`, `mapRes` models
`ErrorKind::MapRes` (the numeric-overflow kind), `tagK` models
`ErrorKind::Tag`, `digitK` models `ErrorKind::Digit`, `multiSpaceK`
models `ErrorKind::MultiSpace`. -/
inductive ErrKind where
  | eof
  | verify
  | mapRes
  | tagK
  | digitK
  | multiSpaceK
  | noFuel
  deriving DecidableEq, Repr

/-- Result type of a nom parser over `&str`, embedded over `List Char`:
`Err(nom::Err::Error((input, kind)))` or `Ok((rest, value))`. -/
abbrev PRes (α : Type) : Type := Except (List Char × ErrKind) (List Char × α)

/-- nom `tag(t)`: succeeds consuming `t` when `t` is a prefix of the
input, otherwise errors with `ErrorKind::Tag` at the input. -/
def tag (t : List Char) (i : List Char) : PRes (List Char) :=
  if t.isPrefixOf i then .ok (i.drop t.length, t) else .error (i, .tagK)

/-- nom `digit1`: consumes one or more ASCII decimal digits; errors with
`ErrorKind::Digit` when the input does not start with a digit. -/
def digit1 (i : List Char) : PRes (List Char) :=
  let ds := i.takeWhile Char.isDigit
  if ds.isEmpty then .error (i, .digitK) else .ok (i.drop ds.length, ds)

/-- The characters matched by nom's `multispace0`/`multispace1`:
space, tab, carriage return and line feed. -/
def isMS (c : Char) : Bool :=
  c = ' ' || c = '\t' || c = '\n' || c = '\r'

/-- nom `multispace0`: consumes zero or more whitespace characters,
never fails. -/
def multispace0 (i : List Char) : PRes (List Char) :=
  let ws := i.takeWhile isMS
  .ok (i.drop ws.length, ws)

/-- nom `multispace1`: consumes one or more whitespace characters;
errors with `ErrorKind::MultiSpace` otherwise. -/
def multispace1 (i : List Char) : PRes (List Char) :=
  let ws := i.takeWhile isMS
  if ws.isEmpty then .error (i, .multiSpaceK) else .ok (i.drop ws.length, ws)

/-- nom `opt(p)`: on success of `p` wraps the value in `Some`; on
`Err::Error` rewinds to the original input and yields `None`. -/
def opt {α : Type} (p : List Char → PRes α) (i : List Char) : PRes (Option α) :=
  match p i with
  | .ok (r, v) => .ok (r, some v)
  | .error _ => .ok (i, none)

/-- nom `alt((p, q))` for two alternatives: tries `p`, then `q` on
`Err::Error`; with the `(&str, ErrorKind)` error type the error of the
last alternative is returned. -/
def alt2 {α : Type} (p q : List Char → PRes α) (i : List Char) : PRes α :=
  match p i with
  | .ok r => .ok r
  | .error _ => q i

/-- nom `map_res(p, f)` where the fallible map `f` is embedded as an
`Option`-valued function: on `f`'s failure errors with
`ErrorKind::MapRes` at the input given to the combinator. -/
def map_res {α β : Type} (p : List Char → PRes α) (f : α → Option β)
    (i : List Char) : PRes β :=
  match p i with
  | .error e => .error e
  | .ok (r, v) =>
    match f v with
    | some b => .ok (r, b)
    | none => .error (i, .mapRes)

/-- nom `separated_pair(p, sep, q)`: runs `p`, `sep`, `q` in sequence
and returns the values of `p` and `q`. -/
def separated_pair {α β γ : Type} (p : List Char → PRes α)
    (sep : List Char → PRes β) (q : List Char → PRes γ)
    (i : List Char) : PRes (α × γ) :=
  match p i with
  | .error e => .error e
  | .ok (r1, a) =>
    match sep r1 with
    | .error e => .error e
    | .ok (r2, _) =>
      match q r2 with
      | .error e => .error e
      | .ok (r3, c) => .ok (r3, (a, c))

/-- Numeric value of a decimal digit string, as `str::parse` computes
it on an all-digit input (most significant digit first). -/
def digitsToNat (ds : List Char) : Nat :=
  ds.foldl (fun a c => a * 10 + (c.toNat - '0'.toNat)) 0

/-- Rust `digits.parse::<u32>()` on the all-digit string produced by
`digit1`: succeeds exactly when the value fits in an unsigned 32-bit
integer. -/
def parseRustU32 (ds : List Char) : Option Nat :=
  let n := digitsToNat ds
  if n ≤ 4294967295 then some n else none

/-- Rust `s.parse::<i32>()` on the all-digit string produced by
`digit1` (no sign present: the sign was already consumed by
`opt(tag("-"))`): succeeds exactly when the value fits in a signed
32-bit integer, i.e. is at most `2147483647`. -/
def parseRustI32 (ds : List Char) : Option Int :=
  let n := digitsToNat ds
  if n ≤ 2147483647 then some (n : Int) else none

/-- Rust `fn parse_u32_number(input: &str) -> IResult<&str, u32>`:
`map_res(digit1, |digits| digits.parse::<u32>())`. -/
def parse_u32_number (input : List Char) : PRes Nat :=
  map_res digit1 parseRustU32 input

/-- Rust `fn parse_i32_number(input: &str) -> IResult<&str, i32>`:
`opt(tag("-"))`, then `map_res(digit1, |s| s.parse::<i32>())`, then the
value is multiplied by `-1` when the minus sign was present. -/
def parse_i32_number (input : List Char) : PRes Int :=
  match opt (tag ['-']) input with
  | .error e => .error e
  | .ok (rest, negate) =>
    match map_res digit1 parseRustI32 rest with
    | .error e => .error e
    | .ok (rest, d) =>
      let n : Int := if negate.isSome then -1 else 1
      .ok (rest, d * n)

/-- Rust `struct DetectAsn1Data`: the parsed asn1 keyword options.
`u32` fields are embedded as `Nat` (values are proven `≤ u32::MAX` via
`parseRustU32`), the `i32` field as `Int`, `max_frames : u16` as `Nat`. -/
structure DetectAsn1Data where
  bitstring_overflow : Bool
  double_overflow : Bool
  oversize_length : Option Nat
  absolute_offset : Option Nat
  relative_offset : Option Int
  max_frames : Nat
  deriving DecidableEq, Repr

/-- Rust `const ASN1_DEFAULT_MAX_FRAMES: u16 = 30`. -/
def ASN1_DEFAULT_MAX_FRAMES : Nat := 30

/-- Rust `impl Default for DetectAsn1Data`. -/
def DetectAsn1Data.default : DetectAsn1Data :=
  { bitstring_overflow := false
    double_overflow := false
    oversize_length := none
    absolute_offset := none
    relative_offset := none
    max_frames := ASN1_DEFAULT_MAX_FRAMES }

/-- Rust `fn bitstring_overflow(i: &str)`: `tag("bitstring_overflow")`. -/
def bitstring_overflow (i : List Char) : PRes (List Char) :=
  tag ("bitstring_overflow".data) i

/-- Rust `fn double_overflow(i: &str)`: `tag("double_overflow")`. -/
def double_overflow (i : List Char) : PRes (List Char) :=
  tag ("double_overflow".data) i

/-- Rust `fn oversize_length(i: &str)`:
`separated_pair(tag("oversize_length"), multispace1, parse_u32_number)`. -/
def oversize_length (i : List Char) : PRes (List Char × Nat) :=
  separated_pair (tag ("oversize_length".data)) multispace1 parse_u32_number i

/-- Rust `fn absolute_offset(i: &str)`:
`separated_pair(tag("absolute_offset"), multispace1, parse_u32_number)`. -/
def absolute_offset (i : List Char) : PRes (List Char × Nat) :=
  separated_pair (tag ("absolute_offset".data)) multispace1 parse_u32_number i

/-- Rust `fn relative_offset(i: &str)`:
`separated_pair(tag("relative_offset"), multispace1, parse_i32_number)`. -/
def relative_offset (i : List Char) : PRes (List Char × Int) :=
  separated_pair (tag ("relative_offset".data)) multispace1 parse_i32_number i

/-- The last member of the loop's tuple:
`opt(alt((multispace1, tag(","))))`'s inner alternative. -/
def sepUnit (i : List Char) : PRes (List Char) :=
  alt2 multispace1 (tag [',']) i

/-- Variant of `opt` where the rewind-on-error behavior is exposed as a plain pair
(remaining input, optional value); identical to `opt` since `opt` never
errors. Used to spell out the loop's 7-tuple of `opt(...)` members. -/
def optT {α : Type} (p : List Char → PRes α) (i : List Char) :
    List Char × Option α :=
  match p i with
  | .ok (r, v) => (r, some v)
  | .error _ => (i, none)

/-- The destructured value of the loop body's `tuple((...))`: one field
per tuple member, named after the Rust binding it is destructured into
(`_` bindings are kept as `ws` and `sep`). -/
structure IterOut where
  ws : Option (List Char)
  bitstring_overflow : Option (List Char)
  double_overflow : Option (List Char)
  oversize_length : Option (List Char × Nat)
  absolute_offset : Option (List Char × Nat)
  relative_offset : Option (List Char × Int)
  sep : Option (List Char)
  deriving DecidableEq, Repr

/-- One evaluation of the loop body's
`tuple((opt(multispace0), opt(bitstring_overflow), opt(double_overflow),
opt(oversize_length), opt(absolute_offset), opt(relative_offset),
opt(alt((multispace1, tag(","))))))(rest)`.
Every member is `opt(...)`, and `opt` never fails, so the tuple always
succeeds: the `?` in the Rust source never propagates an error, and the
embedding returns the new rest plus the tuple of optional values. -/
def iterStep (rest : List Char) : List Char × IterOut :=
  let s1 := optT multispace0 rest
  let s2 := optT bitstring_overflow s1.1
  let s3 := optT double_overflow s2.1
  let s4 := optT oversize_length s3.1
  let s5 := optT absolute_offset s4.1
  let s6 := optT relative_offset s5.1
  let s7 := optT sepUnit s6.1
  (s7.1, ⟨s1.2, s2.2, s3.2, s4.2, s5.2, s6.2, s7.2⟩)

/-- One iteration of the loop body, parameterized by the continuation
`k` (the rest of the loop): runs the tuple, then the `if/else if` chain
that applies the first matched clause's effect to `data` and continues
with `k` on the new rest, or fails with `ErrorKind::Verify` at this
iteration's `rest` when no clause matched. -/
def loopIter (k : List Char → DetectAsn1Data → PRes DetectAsn1Data)
    (rest : List Char) (data : DetectAsn1Data) : PRes DetectAsn1Data :=
  let step := iterStep rest
  if step.2.bitstring_overflow.isSome then
    k step.1 { data with bitstring_overflow := true }
  else if step.2.double_overflow.isSome then
    k step.1 { data with double_overflow := true }
  else
    match step.2.oversize_length with
    | some (_, v) => k step.1 { data with oversize_length := some v }
    | none =>
      match step.2.absolute_offset with
      | some (_, v) => k step.1 { data with absolute_offset := some v }
      | none =>
        match step.2.relative_offset with
        | some (_, v) => k step.1 { data with relative_offset := some v }
        | none => .error (rest, .verify)

/-- The `while !rest.is_empty()` loop of `asn1_parse_rule`, indexed by
fuel for termination: while `rest` is nonempty, run one `loopIter`.
`fuel = rest.length` always suffices: every non-failing iteration
strictly shortens `rest` (theorem `c10_loop_iterations_bounded`), so
the `noFuel` branch is unreachable from `asn1_parse_rule`. -/
def asn1_loopF : Nat → List Char → DetectAsn1Data → PRes DetectAsn1Data
  | 0, rest, data =>
    if rest.isEmpty then .ok (rest, data) else .error (rest, .noFuel)
  | fuel + 1, rest, data =>
    if rest.isEmpty then .ok (rest, data)
    else loopIter (asn1_loopF fuel) rest data

/-- Rust `fn asn1_parse_rule(input: &str) -> IResult<&str, DetectAsn1Data>`:
rejects empty input with `ErrorKind::Eof`, otherwise runs the clause
loop starting from `DetectAsn1Data::default()`. -/
def asn1_parse_rule (input : List Char) : PRes DetectAsn1Data :=
  if input.isEmpty then .error (input, .eof)
  else asn1_loopF input.length input DetectAsn1Data.default

/-- Rust `s.parse::<u16>()` on an arbitrary string, as used for the
`asn1-max-frames` configuration value: an optional leading `+` sign,
then one or more decimal digits whose value is at most `u16::MAX`. -/
def parseRustU16 (s : List Char) : Option Nat :=
  let ds := match s with
    | '+' :: t => t
    | t => t
  if ds ≠ [] ∧ ds.all Char.isDigit then
    let n := digitsToNat ds
    if n ≤ 65535 then some n else none
  else none

/-- Modelled from the spec: the external configuration provider
(`crate::conf::conf_get`, not under `src/`) is "a read-only key-value
store queried under one fixed key name"; we model it as an explicit
oracle from key to optional value. -/
abbrev ConfProvider : Type := List Char → Option (List Char)

/-- Rust `rs_detect_asn1_parse`, with the FFI boundary shallowly embedded:
the `*const c_char` argument becomes `Option (List Char)` (`none` for a
null pointer; the UTF-8 validation of `CStr::to_str` has no content on
`List Char`), the returned pointer becomes `Option DetectAsn1Data`
(`none` for null), and the ambient `crate::conf::conf_get` becomes the
explicit `conf` oracle. On parse success the provider is queried under
`"asn1-max-frames"`; when the value parses as a `u16` it replaces
`max_frames`, otherwise the override is ignored. -/
def rs_detect_asn1_parse (conf : ConfProvider) (input : Option (List Char)) :
    Option DetectAsn1Data :=
  match input with
  | none => none
  | some arg =>
    match asn1_parse_rule arg with
    | .ok (_, data) =>
      let data' :=
        match conf ("asn1-max-frames".data) with
        | some max_frames =>
          match parseRustU16 max_frames with
          | some v => { data with max_frames := v }
          | none => data
        | none => data
      some data'
    | .error _ => none

deriving instance DecidableEq for Except

/-!
## Abstract clause sequences

To state the spec's universally quantified properties (separator
flexibility, duplicate keywords) we describe well-formed option texts
as sequences of abstract clauses rendered to text: the five clause
shapes of the grammar, numeric arguments carried as their literal digit
strings.
-/

/-- One of the five clause shapes of the option grammar. Numeric
arguments are carried as their decimal digit strings, the sign of a
`relative_offset` argument as a Boolean. -/
inductive Clause where
  | bitstring
  | double
  | oversize (ds : List Char)
  | absolute (ds : List Char)
  | relative (neg : Bool) (ds : List Char)
  deriving DecidableEq, Repr

/-- A clause is well formed when its digit string is a nonempty
all-digit sequence whose value fits the clause's integer width
(`u32` for `oversize_length`/`absolute_offset`, `i32` magnitude for
`relative_offset`). -/
def clauseWF : Clause → Bool
  | .bitstring => true
  | .double => true
  | .oversize ds =>
    !ds.isEmpty && ds.all Char.isDigit && decide (digitsToNat ds ≤ 4294967295)
  | .absolute ds =>
    !ds.isEmpty && ds.all Char.isDigit && decide (digitsToNat ds ≤ 4294967295)
  | .relative _ ds =>
    !ds.isEmpty && ds.all Char.isDigit && decide (digitsToNat ds ≤ 2147483647)

/-- A clause whose numeric argument digit sequence is a nonempty
all-digit string whose value exceeds the clause's target integer width
(`u32` for `oversize_length`/`absolute_offset`, `i32` magnitude for
`relative_offset`): the shape of input the NumericOverflow condition
is about. Flag clauses have no numeric argument and never overflow. -/
def clauseOverflow : Clause → Bool
  | .bitstring => false
  | .double => false
  | .oversize ds =>
    !ds.isEmpty && ds.all Char.isDigit && decide (4294967295 < digitsToNat ds)
  | .absolute ds =>
    !ds.isEmpty && ds.all Char.isDigit && decide (4294967295 < digitsToNat ds)
  | .relative _ ds =>
    !ds.isEmpty && ds.all Char.isDigit && decide (2147483647 < digitsToNat ds)

/-- Canonical text of one clause: the keyword, and for the
argument-taking shapes a single separating space and the argument. -/
def renderClause : Clause → List Char
  | .bitstring => "bitstring_overflow".data
  | .double => "double_overflow".data
  | .oversize ds => "oversize_length ".data ++ ds
  | .absolute ds => "absolute_offset ".data ++ ds
  | .relative neg ds =>
    "relative_offset ".data ++ (if neg then ['-'] else []) ++ ds

/-- First character of a clause's rendering; the five clause keywords
start with five distinct letters. -/
def headChar : Clause → Char
  | .bitstring => 'b'
  | .double => 'd'
  | .oversize _ => 'o'
  | .absolute _ => 'a'
  | .relative _ _ => 'r'

/-- The clause texts joined by the separator `sep`. -/
def joinSep (sep : List Char) : List Clause → List Char
  | [] => []
  | [c] => renderClause c
  | c :: cs => renderClause c ++ sep ++ joinSep sep cs

/-- The effect of one matched clause on the accumulator, as performed
by the `if/else if` chain of the parse loop. -/
def applyClause (data : DetectAsn1Data) : Clause → DetectAsn1Data
  | .bitstring => { data with bitstring_overflow := true }
  | .double => { data with double_overflow := true }
  | .oversize ds => { data with oversize_length := some (digitsToNat ds) }
  | .absolute ds => { data with absolute_offset := some (digitsToNat ds) }
  | .relative neg ds =>
    { data with relative_offset := some ((digitsToNat ds : Int) * (if neg then -1 else 1)) }

/-- Folding all clause effects over the accumulator, left to right. -/
def applyAll (data : DetectAsn1Data) (cs : List Clause) : DetectAsn1Data :=
  cs.foldl applyClause data

/-- The `opt(bitstring_overflow)` tuple member's value when the matched
clause is `c`. -/
def boOf : Clause → Option (List Char)
  | .bitstring => some ("bitstring_overflow".data)
  | _ => none

/-- The `opt(double_overflow)` tuple member's value when the matched
clause is `c`. -/
def dovOf : Clause → Option (List Char)
  | .double => some ("double_overflow".data)
  | _ => none

/-- The `opt(oversize_length)` tuple member's value when the matched
clause is `c`. -/
def olOf : Clause → Option (List Char × Nat)
  | .oversize ds => some ("oversize_length".data, digitsToNat ds)
  | _ => none

/-- The `opt(absolute_offset)` tuple member's value when the matched
clause is `c`. -/
def aoOf : Clause → Option (List Char × Nat)
  | .absolute ds => some ("absolute_offset".data, digitsToNat ds)
  | _ => none

/-- The `opt(relative_offset)` tuple member's value when the matched
clause is `c`. -/
def roOf : Clause → Option (List Char × Int)
  | .relative neg ds =>
    some ("relative_offset".data, (digitsToNat ds : Int) * (if neg then -1 else 1))
  | _ => none

/-- The value carried by the last clause of `cs` that `f` extracts a
value from: the "last occurrence wins" accumulator semantics. -/
def lastOcc {α : Type} (f : Clause → Option α) : List Clause → Option α
  | [] => none
  | c :: cs =>
    match lastOcc f cs with
    | some v => some v
    | none => f c

/-- Holds (`true`) when some clause matcher of the tuple succeeded in this
iteration: exactly the condition under which the loop's `if/else if`
chain applies an effect instead of failing with `ErrorKind::Verify`. -/
def clauseMatched (out : IterOut) : Bool :=
  out.bitstring_overflow.isSome || out.double_overflow.isSome ||
  out.oversize_length.isSome || out.absolute_offset.isSome ||
  out.relative_offset.isSome

/-- Predicate `headNotB p l`: the first character of `l`, when it exists, does
not satisfy `p`. Used to state that `takeWhile`-based matchers stop
exactly at the rendered boundary. -/
def headNotB (p : Char → Bool) : List Char → Bool
  | [] => true
  | c :: _ => !p c

/-- The ways the text following a clause can start so that the
iteration's trailing `opt(alt((multispace1, tag(",")))))` slot leaves
exactly `next`: nothing follows, a nonempty whitespace run precedes
`next` (which does not start with whitespace), or a single comma
precedes `next`. -/
inductive SepSplit : List Char → List Char → Prop where
  | nil : SepSplit [] []
  | ws (w next : List Char) : w ≠ [] → w.all isMS = true →
      headNotB isMS next = true → SepSplit (w ++ next) next
  | comma (next : List Char) : SepSplit (',' :: next) next

/-!
## Basic combinator lemmas
-/

theorem isPrefixOf_append_self (t r : List Char) : t.isPrefixOf (t ++ r) = true := by
  induction t with
  | nil => cases r <;> rfl
  | cons a t ih => simp [List.isPrefixOf, ih]

theorem isPrefixOf_length_le (t i : List Char) (h : t.isPrefixOf i = true) :
    t.length ≤ i.length := by
  induction t generalizing i with
  | nil => simp
  | cons a t ih =>
    cases i with
    | nil => simp [List.isPrefixOf] at h
    | cons b s =>
      simp only [List.isPrefixOf, Bool.and_eq_true] at h
      have := ih s h.2
      simp [List.length_cons]
      omega

theorem tag_self_append (t r : List Char) : tag t (t ++ r) = .ok (r, t) := by
  simp [tag, isPrefixOf_append_self, List.drop_left]

theorem tag_nil_fail (a : Char) (t : List Char) :
    tag (a :: t) [] = .error ([], .tagK) := by
  simp [tag, List.isPrefixOf]

theorem tag_head_ne (a : Char) (t i : List Char)
    (h : ∀ c, i.head? = some c → c ≠ a) : tag (a :: t) i = .error (i, .tagK) := by
  cases i with
  | nil => exact tag_nil_fail a t
  | cons b s =>
    have hb : b ≠ a := h b rfl
    have : (a == b) = false := beq_eq_false_iff_ne.mpr (Ne.symm hb)
    simp [tag, List.isPrefixOf, this]

theorem takeWhile_append_all (p : Char → Bool) (ds tail : List Char)
    (h1 : ds.all p = true) (h2 : headNotB p tail = true) :
    (ds ++ tail).takeWhile p = ds := by
  induction ds with
  | nil =>
    cases tail with
    | nil => rfl
    | cons c t =>
      simp only [headNotB, Bool.not_eq_true'] at h2
      simp [List.takeWhile, h2]
  | cons d ds ih =>
    simp only [List.all_cons, Bool.and_eq_true] at h1
    simp [List.takeWhile, h1.1, ih h1.2]

theorem digit1_exact (ds tail : List Char) (h0 : ds ≠ [])
    (h1 : ds.all Char.isDigit = true) (h2 : headNotB Char.isDigit tail = true) :
    digit1 (ds ++ tail) = .ok (tail, ds) := by
  have htw := takeWhile_append_all Char.isDigit ds tail h1 h2
  have hne : ds.isEmpty = false := by
    cases ds with
    | nil => exact absurd rfl h0
    | cons d t => rfl
  simp [digit1, htw, hne, List.drop_left]

theorem multispace0_exact (w tail : List Char)
    (h1 : w.all isMS = true) (h2 : headNotB isMS tail = true) :
    multispace0 (w ++ tail) = .ok (tail, w) := by
  have htw := takeWhile_append_all isMS w tail h1 h2
  simp [multispace0, htw, List.drop_left]

theorem multispace1_exact (w tail : List Char) (h0 : w ≠ [])
    (h1 : w.all isMS = true) (h2 : headNotB isMS tail = true) :
    multispace1 (w ++ tail) = .ok (tail, w) := by
  have htw := takeWhile_append_all isMS w tail h1 h2
  have hne : w.isEmpty = false := by
    cases w with
    | nil => exact absurd rfl h0
    | cons d t => rfl
  simp [multispace1, htw, hne, List.drop_left]

theorem multispace1_fail (i : List Char) (h : headNotB isMS i = true) :
    multispace1 i = .error (i, .multiSpaceK) := by
  have : i.takeWhile isMS = [] := by
    cases i with
    | nil => rfl
    | cons c t =>
      simp only [headNotB, Bool.not_eq_true'] at h
      simp [List.takeWhile, h]
  simp [multispace1, this]

theorem opt_ok {α : Type} (p : List Char → PRes α) (i r : List Char) (v : α)
    (h : p i = .ok (r, v)) : opt p i = .ok (r, some v) := by
  simp [opt, h]

theorem opt_err {α : Type} (p : List Char → PRes α) (i : List Char)
    (e : List Char × ErrKind) (h : p i = .error e) : opt p i = .ok (i, none) := by
  simp [opt, h]

theorem optT_ok {α : Type} (p : List Char → PRes α) (i r : List Char) (v : α)
    (h : p i = .ok (r, v)) : optT p i = (r, some v) := by
  simp [optT, h]

theorem optT_err {α : Type} (p : List Char → PRes α) (i : List Char)
    (e : List Char × ErrKind) (h : p i = .error e) : optT p i = (i, none) := by
  simp [optT, h]

theorem optT_some {α : Type} (p : List Char → PRes α) (i r : List Char)
    (v : α) (h : optT p i = (r, some v)) : p i = .ok (r, v) := by
  unfold optT at h
  cases hp : p i with
  | ok x =>
    obtain ⟨r', v'⟩ := x
    rw [hp] at h
    simp at h
    rw [h.1, h.2]
  | error e =>
    rw [hp] at h
    simp at h

theorem ne_of_bool_distinct {f : Char → Bool} (c a : Char) (h1 : f c = true)
    (h2 : f a = false) : c ≠ a := by
  intro he
  subst he
  rw [h1] at h2
  simp at h2

theorem of_isMS (c : Char) (h : isMS c = true) :
    c = ' ' ∨ c = '\t' ∨ c = '\n' ∨ c = '\r' := by
  simp only [isMS, Bool.or_eq_true, decide_eq_true_eq] at h
  tauto

theorem isDigit_of_all {ds : List Char} {c : Char}
    (h : ds.all Char.isDigit = true) (hc : c ∈ ds) : c.isDigit = true := by
  exact List.all_eq_true.mp h c hc

theorem headNotB_append (p : Char → Bool) (ds tail : List Char) (h0 : ds ≠ []) :
    headNotB p (ds ++ tail) = headNotB p ds := by
  cases ds with
  | nil => exact absurd rfl h0
  | cons d t => rfl

theorem headNotB_digit_of_all (ds : List Char)
    (h : ds.all Char.isDigit = true) : headNotB isMS ds = true := by
  cases ds with
  | nil => rfl
  | cons d t =>
    simp only [List.all_cons, Bool.and_eq_true] at h
    rcases hm : isMS d with _ | _
    · simp [headNotB, hm]
    · rcases of_isMS d hm with h' | h' | h' | h' <;> subst h' <;> simp at h

/-- The input does not start with any of the five clause keywords'
first letters: every clause matcher's leading `tag` fails on it. -/
def noKwHead (i : List Char) : Prop :=
  ∀ c, i.head? = some c → c ≠ 'b' ∧ c ≠ 'd' ∧ c ≠ 'o' ∧ c ≠ 'a' ∧ c ≠ 'r'

theorem noKwHead_of_MS_head (i : List Char)
    (h : ∀ c, i.head? = some c → isMS c = true) : noKwHead i := by
  intro c hc
  have hm := h c hc
  refine ⟨?_, ?_, ?_, ?_, ?_⟩ <;> exact ne_of_bool_distinct c _ hm (by decide)

theorem noKwHead_append_MS (w next : List Char) (hw : w ≠ [])
    (h : w.all isMS = true) : noKwHead (w ++ next) := by
  cases w with
  | nil => exact absurd rfl hw
  | cons a t =>
    simp only [List.all_cons, Bool.and_eq_true] at h
    apply noKwHead_of_MS_head
    intro c hc
    simp only [List.cons_append, List.head?_cons, Option.some_inj] at hc
    rw [← hc]
    exact h.1

theorem noKwHead_comma (next : List Char) : noKwHead (',' :: next) := by
  intro c hc
  simp only [List.head?_cons, Option.some_inj] at hc
  subst hc
  refine ⟨?_, ?_, ?_, ?_, ?_⟩ <;> decide

theorem noKwHead_nil : noKwHead [] := by
  intro c hc
  simp at hc

theorem bitstring_fail (i : List Char) (h : ∀ c, i.head? = some c → c ≠ 'b') :
    bitstring_overflow i = .error (i, .tagK) := by
  have e : "bitstring_overflow".data = 'b' :: "itstring_overflow".data := rfl
  rw [bitstring_overflow, e]
  exact tag_head_ne _ _ i h

theorem double_fail (i : List Char) (h : ∀ c, i.head? = some c → c ≠ 'd') :
    double_overflow i = .error (i, .tagK) := by
  have e : "double_overflow".data = 'd' :: "ouble_overflow".data := rfl
  rw [double_overflow, e]
  exact tag_head_ne _ _ i h

theorem oversize_fail (i : List Char) (h : ∀ c, i.head? = some c → c ≠ 'o') :
    oversize_length i = .error (i, .tagK) := by
  have e : "oversize_length".data = 'o' :: "versize_length".data := rfl
  have ht := tag_head_ne 'o' ("versize_length".data) i h
  rw [← e] at ht
  simp [oversize_length, separated_pair, ht]

theorem absolute_fail (i : List Char) (h : ∀ c, i.head? = some c → c ≠ 'a') :
    absolute_offset i = .error (i, .tagK) := by
  have e : "absolute_offset".data = 'a' :: "bsolute_offset".data := rfl
  have ht := tag_head_ne 'a' ("bsolute_offset".data) i h
  rw [← e] at ht
  simp [absolute_offset, separated_pair, ht]

theorem relative_fail (i : List Char) (h : ∀ c, i.head? = some c → c ≠ 'r') :
    relative_offset i = .error (i, .tagK) := by
  have e : "relative_offset".data = 'r' :: "elative_offset".data := rfl
  have ht := tag_head_ne 'r' ("elative_offset".data) i h
  rw [← e] at ht
  simp [relative_offset, separated_pair, ht]
theorem parse_u32_exact (ds tail : List Char) (h0 : ds ≠ [])
    (h1 : ds.all Char.isDigit = true) (h2 : headNotB Char.isDigit tail = true)
    (h3 : digitsToNat ds ≤ 4294967295) :
    parse_u32_number (ds ++ tail) = .ok (tail, digitsToNat ds) := by
  rw [parse_u32_number, map_res, digit1_exact ds tail h0 h1 h2]
  simp [parseRustU32, h3]

theorem parse_i32_exact (neg : Bool) (ds tail : List Char) (h0 : ds ≠ [])
    (h1 : ds.all Char.isDigit = true) (h2 : headNotB Char.isDigit tail = true)
    (h3 : digitsToNat ds ≤ 2147483647) :
    parse_i32_number ((if neg then ['-'] else []) ++ ds ++ tail) =
      .ok (tail, (digitsToNat ds : Int) * (if neg then -1 else 1)) := by
  have hmr : map_res digit1 parseRustI32 (ds ++ tail) =
      .ok (tail, (digitsToNat ds : Int)) := by
    rw [map_res, digit1_exact ds tail h0 h1 h2]
    simp [parseRustI32, h3]
  cases neg with
  | true =>
    have e : ((if true then ['-'] else []) ++ ds ++ tail : List Char) =
        ['-'] ++ (ds ++ tail) := by
      simp [List.append_assoc]
    rw [parse_i32_number, e, opt_ok (tag ['-']) _ (ds ++ tail) ['-']
      (tag_self_append ['-'] (ds ++ tail))]
    simp [hmr]
  | false =>
    have hne : ∀ c, (ds ++ tail).head? = some c → c ≠ '-' := by
      intro c hc
      cases ds with
      | nil => exact absurd rfl h0
      | cons d t =>
        simp only [List.cons_append, List.head?_cons, Option.some_inj] at hc
        simp only [List.all_cons, Bool.and_eq_true] at h1
        rw [← hc]
        exact ne_of_bool_distinct d '-' h1.1 (by decide)
    have ht : tag ['-'] (ds ++ tail) = .error (ds ++ tail, .tagK) :=
      tag_head_ne '-' [] (ds ++ tail) hne
    have e : ((if false then ['-'] else []) ++ ds ++ tail : List Char) =
        ds ++ tail := by simp
    rw [parse_i32_number, e, opt_err (tag ['-']) (ds ++ tail) _ ht]
    simp [hmr]

theorem bitstring_exact (tail : List Char) :
    bitstring_overflow ("bitstring_overflow".data ++ tail) =
      .ok (tail, "bitstring_overflow".data) := by
  rw [bitstring_overflow]
  exact tag_self_append _ tail

theorem double_exact (tail : List Char) :
    double_overflow ("double_overflow".data ++ tail) =
      .ok (tail, "double_overflow".data) := by
  rw [double_overflow]
  exact tag_self_append _ tail

theorem oversize_exact (ds tail : List Char) (h0 : ds ≠ [])
    (h1 : ds.all Char.isDigit = true) (h2 : headNotB Char.isDigit tail = true)
    (h3 : digitsToNat ds ≤ 4294967295) :
    oversize_length ("oversize_length ".data ++ ds ++ tail) =
      .ok (tail, ("oversize_length".data, digitsToNat ds)) := by
  have e : "oversize_length ".data ++ ds ++ tail =
      "oversize_length".data ++ (' ' :: (ds ++ tail)) := by
    have h : "oversize_length ".data = "oversize_length".data ++ [' '] := rfl
    simp [h, List.append_assoc]
  have hms : multispace1 (' ' :: (ds ++ tail)) = .ok (ds ++ tail, [' ']) := by
    have h : (' ' :: (ds ++ tail) : List Char) = [' '] ++ (ds ++ tail) := rfl
    rw [h]
    exact multispace1_exact [' '] (ds ++ tail) (by simp) (by decide)
      (by rw [headNotB_append isMS ds tail h0]; exact headNotB_digit_of_all ds h1)
  rw [oversize_length, e, separated_pair, tag_self_append]
  simp [hms, parse_u32_exact ds tail h0 h1 h2 h3]

theorem absolute_exact (ds tail : List Char) (h0 : ds ≠ [])
    (h1 : ds.all Char.isDigit = true) (h2 : headNotB Char.isDigit tail = true)
    (h3 : digitsToNat ds ≤ 4294967295) :
    absolute_offset ("absolute_offset ".data ++ ds ++ tail) =
      .ok (tail, ("absolute_offset".data, digitsToNat ds)) := by
  have e : "absolute_offset ".data ++ ds ++ tail =
      "absolute_offset".data ++ (' ' :: (ds ++ tail)) := by
    have h : "absolute_offset ".data = "absolute_offset".data ++ [' '] := rfl
    simp [h, List.append_assoc]
  have hms : multispace1 (' ' :: (ds ++ tail)) = .ok (ds ++ tail, [' ']) := by
    have h : (' ' :: (ds ++ tail) : List Char) = [' '] ++ (ds ++ tail) := rfl
    rw [h]
    exact multispace1_exact [' '] (ds ++ tail) (by simp) (by decide)
      (by rw [headNotB_append isMS ds tail h0]; exact headNotB_digit_of_all ds h1)
  rw [absolute_offset, e, separated_pair, tag_self_append]
  simp [hms, parse_u32_exact ds tail h0 h1 h2 h3]

theorem relative_exact (neg : Bool) (ds tail : List Char) (h0 : ds ≠ [])
    (h1 : ds.all Char.isDigit = true) (h2 : headNotB Char.isDigit tail = true)
    (h3 : digitsToNat ds ≤ 2147483647) :
    relative_offset ("relative_offset ".data ++ (if neg then ['-'] else []) ++ ds ++ tail) =
      .ok (tail, ("relative_offset".data, (digitsToNat ds : Int) * (if neg then -1 else 1))) := by
  have e : "relative_offset ".data ++ (if neg then ['-'] else []) ++ ds ++ tail =
      "relative_offset".data ++ (' ' :: ((if neg then ['-'] else []) ++ ds ++ tail)) := by
    have h : "relative_offset ".data = "relative_offset".data ++ [' '] := rfl
    simp [h, List.append_assoc]
  have hsgn : headNotB isMS ((if neg then ['-'] else []) ++ ds ++ tail) = true := by
    cases neg with
    | true => rfl
    | false =>
      have e2 : ((if false then ['-'] else []) ++ ds ++ tail : List Char) =
          ds ++ tail := by simp
      rw [e2, headNotB_append isMS ds tail h0]
      exact headNotB_digit_of_all ds h1
  have hms : multispace1 (' ' :: ((if neg then ['-'] else []) ++ (ds ++ tail))) =
      .ok ((if neg then ['-'] else []) ++ (ds ++ tail), [' ']) := by
    have h : (' ' :: ((if neg then ['-'] else []) ++ (ds ++ tail)) : List Char) =
        [' '] ++ ((if neg then ['-'] else []) ++ (ds ++ tail)) := rfl
    rw [h]
    refine multispace1_exact [' '] _ (by simp) (by decide) ?_
    rw [← List.append_assoc]
    exact hsgn
  have hpi : parse_i32_number ((if neg then ['-'] else []) ++ (ds ++ tail)) =
      .ok (tail, (digitsToNat ds : Int) * (if neg then -1 else 1)) := by
    rw [← List.append_assoc]
    exact parse_i32_exact neg ds tail h0 h1 h2 h3
  rw [relative_offset, e, separated_pair, tag_self_append]
  simp [hms, hpi]

theorem sepUnit_split (tail next : List Char) (h : SepSplit tail next) :
    ∃ s, optT sepUnit tail = (next, s) := by
  cases h with
  | nil =>
    refine ⟨none, ?_⟩
    apply optT_err sepUnit [] (([], ErrKind.tagK))
    rw [sepUnit, alt2, multispace1_fail [] (by rfl)]
    exact tag_nil_fail ',' []
  | ws w next hw hall hnext =>
    refine ⟨some w, ?_⟩
    apply optT_ok sepUnit _ next w
    rw [sepUnit, alt2, multispace1_exact w next hw hall hnext]
  | comma next =>
    refine ⟨some [','], ?_⟩
    apply optT_ok sepUnit _ next [',']
    rw [sepUnit, alt2, multispace1_fail (',' :: next) (by rfl)]
    have e : (',' :: next : List Char) = [','] ++ next := rfl
    rw [e]
    exact tag_self_append [','] next

theorem headNe_cons (b : Char) (l : List Char) (a : Char) (hba : b ≠ a) :
    ∀ c, (b :: l).head? = some c → c ≠ a := by
  intro c hc
  simp only [List.head?_cons, Option.some_inj] at hc
  rw [← hc]
  exact hba

theorem ne_nil_of_isEmpty_false (l : List Char) (h : l.isEmpty = false) :
    l ≠ [] := by
  cases l with
  | nil => simp at h
  | cons a t => simp

theorem SepSplit_noKwHead (tail next : List Char) (h : SepSplit tail next) :
    noKwHead tail := by
  cases h with
  | nil => exact noKwHead_nil
  | ws w next hw hall hnext => exact noKwHead_append_MS w next hw hall
  | comma next => exact noKwHead_comma next

theorem SepSplit_headNotDigit (tail next : List Char) (h : SepSplit tail next) :
    headNotB Char.isDigit tail = true := by
  cases h with
  | nil => rfl
  | ws w next hw hall hnext =>
    cases w with
    | nil => exact absurd rfl hw
    | cons a t =>
      simp only [List.all_cons, Bool.and_eq_true] at hall
      have := of_isMS a hall.1
      rcases this with h' | h' | h' | h' <;> subst h' <;> rfl
  | comma next => rfl
theorem iterStep_eq (rest i1 i2 i3 i4 i5 i6 i7 : List Char)
    (w : Option (List Char)) (bo dov : Option (List Char))
    (ol ao : Option (List Char × Nat)) (ro : Option (List Char × Int))
    (sp : Option (List Char))
    (e1 : optT multispace0 rest = (i1, w))
    (e2 : optT bitstring_overflow i1 = (i2, bo))
    (e3 : optT double_overflow i2 = (i3, dov))
    (e4 : optT oversize_length i3 = (i4, ol))
    (e5 : optT absolute_offset i4 = (i5, ao))
    (e6 : optT relative_offset i5 = (i6, ro))
    (e7 : optT sepUnit i6 = (i7, sp)) :
    iterStep rest = (i7, ⟨w, bo, dov, ol, ao, ro, sp⟩) := by
  simp only [iterStep, e1, e2, e3, e4, e5, e6, e7]

/-- Characterization of one loop-body tuple evaluation on an input made
of leading whitespace, one well-formed rendered clause, and a separator
shape: the tuple consumes the whitespace, the clause (matched by
exactly its own matcher) and the separator unit, leaving `next`. -/
theorem iterStep_clause (c : Clause) (hwf : clauseWF c = true)
    (lws tail next : List Char) (hl : lws.all isMS = true)
    (hsplit : SepSplit tail next) :
    ∃ w s, iterStep (lws ++ (renderClause c ++ tail)) =
      (next, ⟨w, boOf c, dovOf c, olOf c, aoOf c, roOf c, s⟩) := by
  have hnk : noKwHead tail := SepSplit_noKwHead tail next hsplit
  have hnd : headNotB Char.isDigit tail = true :=
    SepSplit_headNotDigit tail next hsplit
  obtain ⟨s, h7⟩ := sepUnit_split tail next hsplit
  have hhead : headNotB isMS (renderClause c ++ tail) = true := by
    cases c <;> rfl
  have h1 : optT multispace0 (lws ++ (renderClause c ++ tail)) =
      (renderClause c ++ tail, some lws) :=
    optT_ok _ _ _ _ (multispace0_exact lws _ hl hhead)
  cases c with
  | bitstring =>
    have h2 : optT bitstring_overflow (renderClause .bitstring ++ tail) =
        (tail, some ("bitstring_overflow".data)) :=
      optT_ok _ _ _ _ (bitstring_exact tail)
    have h3 := optT_err _ _ _ (double_fail tail (fun c hc => (hnk c hc).2.1))
    have h4 := optT_err _ _ _ (oversize_fail tail (fun c hc => (hnk c hc).2.2.1))
    have h5 := optT_err _ _ _ (absolute_fail tail (fun c hc => (hnk c hc).2.2.2.1))
    have h6 := optT_err _ _ _ (relative_fail tail (fun c hc => (hnk c hc).2.2.2.2))
    exact ⟨some lws, s, iterStep_eq _ _ _ _ _ _ _ _ _ _ _ _ _ _ _ h1 h2 h3 h4 h5 h6 h7⟩
  | double =>
    have e : renderClause .double ++ tail = 'd' :: ("ouble_overflow".data ++ tail) := rfl
    have h2 := optT_err _ _ _ (bitstring_fail (renderClause .double ++ tail)
      (by rw [e]; exact headNe_cons 'd' _ 'b' (by decide)))
    have h3 : optT double_overflow (renderClause .double ++ tail) =
        (tail, some ("double_overflow".data)) :=
      optT_ok _ _ _ _ (double_exact tail)
    have h4 := optT_err _ _ _ (oversize_fail tail (fun c hc => (hnk c hc).2.2.1))
    have h5 := optT_err _ _ _ (absolute_fail tail (fun c hc => (hnk c hc).2.2.2.1))
    have h6 := optT_err _ _ _ (relative_fail tail (fun c hc => (hnk c hc).2.2.2.2))
    exact ⟨some lws, s, iterStep_eq _ _ _ _ _ _ _ _ _ _ _ _ _ _ _ h1 h2 h3 h4 h5 h6 h7⟩
  | oversize ds =>
    simp only [clauseWF, Bool.and_eq_true, Bool.not_eq_true', decide_eq_true_eq] at hwf
    obtain ⟨⟨hE, hall⟩, hle⟩ := hwf
    have h0 : ds ≠ [] := ne_nil_of_isEmpty_false ds hE
    have e : renderClause (.oversize ds) ++ tail =
        'o' :: ("versize_length ".data ++ ds ++ tail) := by
      simp [renderClause, List.append_assoc]
    have h2 := optT_err _ _ _ (bitstring_fail (renderClause (.oversize ds) ++ tail)
      (by rw [e]; exact headNe_cons 'o' _ 'b' (by decide)))
    have h3 := optT_err _ _ _ (double_fail (renderClause (.oversize ds) ++ tail)
      (by rw [e]; exact headNe_cons 'o' _ 'd' (by decide)))
    have h4 : optT oversize_length (renderClause (.oversize ds) ++ tail) =
        (tail, some ("oversize_length".data, digitsToNat ds)) :=
      optT_ok _ _ _ _ (oversize_exact ds tail h0 hall hnd hle)
    have h5 := optT_err _ _ _ (absolute_fail tail (fun c hc => (hnk c hc).2.2.2.1))
    have h6 := optT_err _ _ _ (relative_fail tail (fun c hc => (hnk c hc).2.2.2.2))
    exact ⟨some lws, s, iterStep_eq _ _ _ _ _ _ _ _ _ _ _ _ _ _ _ h1 h2 h3 h4 h5 h6 h7⟩
  | absolute ds =>
    simp only [clauseWF, Bool.and_eq_true, Bool.not_eq_true', decide_eq_true_eq] at hwf
    obtain ⟨⟨hE, hall⟩, hle⟩ := hwf
    have h0 : ds ≠ [] := ne_nil_of_isEmpty_false ds hE
    have e : renderClause (.absolute ds) ++ tail =
        'a' :: ("bsolute_offset ".data ++ ds ++ tail) := by
      simp [renderClause, List.append_assoc]
    have h2 := optT_err _ _ _ (bitstring_fail (renderClause (.absolute ds) ++ tail)
      (by rw [e]; exact headNe_cons 'a' _ 'b' (by decide)))
    have h3 := optT_err _ _ _ (double_fail (renderClause (.absolute ds) ++ tail)
      (by rw [e]; exact headNe_cons 'a' _ 'd' (by decide)))
    have h4 := optT_err _ _ _ (oversize_fail (renderClause (.absolute ds) ++ tail)
      (by rw [e]; exact headNe_cons 'a' _ 'o' (by decide)))
    have h5 : optT absolute_offset (renderClause (.absolute ds) ++ tail) =
        (tail, some ("absolute_offset".data, digitsToNat ds)) :=
      optT_ok _ _ _ _ (absolute_exact ds tail h0 hall hnd hle)
    have h6 := optT_err _ _ _ (relative_fail tail (fun c hc => (hnk c hc).2.2.2.2))
    exact ⟨some lws, s, iterStep_eq _ _ _ _ _ _ _ _ _ _ _ _ _ _ _ h1 h2 h3 h4 h5 h6 h7⟩
  | relative neg ds =>
    simp only [clauseWF, Bool.and_eq_true, Bool.not_eq_true', decide_eq_true_eq] at hwf
    obtain ⟨⟨hE, hall⟩, hle⟩ := hwf
    have h0 : ds ≠ [] := ne_nil_of_isEmpty_false ds hE
    have e : renderClause (.relative neg ds) ++ tail =
        'r' :: ("elative_offset ".data ++ (if neg then ['-'] else []) ++ ds ++ tail) := by
      simp [renderClause, List.append_assoc]
    have h2 := optT_err _ _ _ (bitstring_fail (renderClause (.relative neg ds) ++ tail)
      (by rw [e]; exact headNe_cons 'r' _ 'b' (by decide)))
    have h3 := optT_err _ _ _ (double_fail (renderClause (.relative neg ds) ++ tail)
      (by rw [e]; exact headNe_cons 'r' _ 'd' (by decide)))
    have h4 := optT_err _ _ _ (oversize_fail (renderClause (.relative neg ds) ++ tail)
      (by rw [e]; exact headNe_cons 'r' _ 'o' (by decide)))
    have h5 := optT_err _ _ _ (absolute_fail (renderClause (.relative neg ds) ++ tail)
      (by rw [e]; exact headNe_cons 'r' _ 'a' (by decide)))
    have h6 : optT relative_offset (renderClause (.relative neg ds) ++ tail) =
        (tail, some ("relative_offset".data, (digitsToNat ds : Int) * (if neg then -1 else 1))) :=
      optT_ok _ _ _ _ (relative_exact neg ds tail h0 hall hnd hle)
    exact ⟨some lws, s, iterStep_eq _ _ _ _ _ _ _ _ _ _ _ _ _ _ _ h1 h2 h3 h4 h5 h6 h7⟩

theorem render_head (c : Clause) : ∃ t, renderClause c = headChar c :: t := by
  cases c <;> exact ⟨_, rfl⟩

theorem renderClause_length_pos (c : Clause) : 1 ≤ (renderClause c).length := by
  obtain ⟨t, ht⟩ := render_head c
  rw [ht]
  simp

theorem joinSep_single (sep : List Char) (c : Clause) :
    joinSep sep [c] = renderClause c := rfl

theorem joinSep_cons2 (sep : List Char) (c : Clause) (cs : List Clause)
    (h : cs ≠ []) :
    joinSep sep (c :: cs) = renderClause c ++ (sep ++ joinSep sep cs) := by
  cases cs with
  | nil => exact absurd rfl h
  | cons c2 t => simp [joinSep, List.append_assoc]

theorem join_headNotMS (sep : List Char) (cs : List Clause) (h : cs ≠ []) :
    headNotB isMS (joinSep sep cs) = true := by
  cases cs with
  | nil => exact absurd rfl h
  | cons c cs =>
    obtain ⟨t, ht⟩ := render_head c
    have hh : ∃ X, joinSep sep (c :: cs) = headChar c :: X := by
      cases cs with
      | nil => exact ⟨t, ht⟩
      | cons c2 t2 =>
        refine ⟨t ++ (sep ++ joinSep sep (c2 :: t2)), ?_⟩
        rw [joinSep_cons2 sep c (c2 :: t2) (by simp), ht]
        simp
    obtain ⟨X, hX⟩ := hh
    rw [hX]
    cases c <;> rfl

theorem asn1_loopF_nil (fuel : Nat) (data : DetectAsn1Data) :
    asn1_loopF fuel [] data = .ok ([], data) := by
  cases fuel <;> rfl

theorem asn1_loopF_step (fuel : Nat) (rest : List Char) (data : DetectAsn1Data)
    (next : List Char) (out : IterOut) (hne : rest.isEmpty = false)
    (hit : iterStep rest = (next, out)) :
    asn1_loopF (fuel + 1) rest data =
      (if out.bitstring_overflow.isSome then
        asn1_loopF fuel next { data with bitstring_overflow := true }
      else if out.double_overflow.isSome then
        asn1_loopF fuel next { data with double_overflow := true }
      else
        match out.oversize_length with
        | some (_, v) => asn1_loopF fuel next { data with oversize_length := some v }
        | none =>
          match out.absolute_offset with
          | some (_, v) => asn1_loopF fuel next { data with absolute_offset := some v }
          | none =>
            match out.relative_offset with
            | some (_, v) => asn1_loopF fuel next { data with relative_offset := some v }
            | none => .error (rest, .verify)) := by
  simp only [asn1_loopF, hne, Bool.false_eq_true, if_false, loopIter, hit]

theorem applyAll_cons (d : DetectAsn1Data) (c : Clause) (cs : List Clause) :
    applyAll d (c :: cs) = applyAll (applyClause d c) cs := rfl

theorem joinSep_cons_shape (sep : List Char) (c : Clause) (cs : List Clause) :
    ∃ X, joinSep sep (c :: cs) = renderClause c ++ X := by
  cases cs with
  | nil => exact ⟨[], by simp [joinSep_single]⟩
  | cons c2 t => exact ⟨sep ++ joinSep sep (c2 :: t), joinSep_cons2 sep c (c2 :: t) (by simp)⟩

theorem joinSep_length_pos (sep : List Char) (c : Clause) (cs : List Clause) :
    1 ≤ (joinSep sep (c :: cs)).length := by
  obtain ⟨X, hX⟩ := joinSep_cons_shape sep c cs
  rw [hX, List.length_append]
  have := renderClause_length_pos c
  omega

/-- One full iteration of the loop on a well-formed clause followed by
a separator shape: the clause's effect is applied and the loop
continues on `next` with one less unit of fuel. -/
theorem loopF_clause_step (c : Clause) (hwfc : clauseWF c = true)
    (lws tail next : List Char) (hlws : lws.all isMS = true)
    (hsplit : SepSplit tail next) (fuel : Nat) (data : DetectAsn1Data) :
    asn1_loopF (fuel + 1) (lws ++ (renderClause c ++ tail)) data =
      asn1_loopF fuel next (applyClause data c) := by
  obtain ⟨w, s, hit⟩ := iterStep_clause c hwfc lws tail next hlws hsplit
  have hne2 : (lws ++ (renderClause c ++ tail)).isEmpty = false := by
    obtain ⟨t0, ht0⟩ := render_head c
    rw [ht0]
    cases lws <;> simp
  rw [asn1_loopF_step fuel _ data next _ hne2 hit]
  cases c <;> simp [boOf, dovOf, olOf, aoOf, roOf, applyClause]

/-- The loop, run on well-formed clauses joined by one of the four
separator forms (single space, single comma, comma plus space, newline
plus tab), possibly preceded by leading whitespace: it consumes the
whole input and applies every clause in order. -/
theorem asn1_loop_join (sep : List Char)
    (hsep : sep = " ".data ∨ sep = ",".data ∨ sep = ", ".data ∨ sep = "\n\t".data)
    (cs : List Clause) :
    ∀ (lws : List Char) (data : DetectAsn1Data) (fuel : Nat),
      cs ≠ [] → cs.all clauseWF = true → lws.all isMS = true →
      (lws ++ joinSep sep cs).length ≤ fuel →
      asn1_loopF fuel (lws ++ joinSep sep cs) data = .ok ([], applyAll data cs) := by
  induction cs with
  | nil => intro lws data fuel hne; exact absurd rfl hne
  | cons c cs ih =>
    intro lws data fuel _ hwf hlws hfuel
    simp only [List.all_cons, Bool.and_eq_true] at hwf
    have hlen1 : 1 ≤ (lws ++ joinSep sep (c :: cs)).length := by
      rw [List.length_append]
      have := joinSep_length_pos sep c cs
      omega
    cases fuel with
    | zero => omega
    | succ fuel =>
      cases cs with
      | nil =>
        have e : lws ++ joinSep sep [c] = lws ++ (renderClause c ++ []) := by
          simp [joinSep_single]
        rw [e, loopF_clause_step c hwf.1 lws [] [] hlws SepSplit.nil fuel data,
          asn1_loopF_nil]
        simp [applyAll, applyClause]
      | cons c2 cs2 =>
        have hcs' : (c2 :: cs2 : List Clause) ≠ [] := by simp
        have hJhead : headNotB isMS (joinSep sep (c2 :: cs2)) = true :=
          join_headNotMS sep _ hcs'
        have e : lws ++ joinSep sep (c :: c2 :: cs2) =
            lws ++ (renderClause c ++ (sep ++ joinSep sep (c2 :: cs2))) := by
          rw [joinSep_cons2 sep c (c2 :: cs2) hcs']
        rw [e] at hfuel ⊢
        rcases hsep with hs | hs | hs | hs <;> subst hs
        · -- separator " "
          have hsplit : SepSplit (" ".data ++ joinSep (" ".data) (c2 :: cs2))
              (joinSep (" ".data) (c2 :: cs2)) :=
            SepSplit.ws [' '] _ (by simp) (by rfl) hJhead
          rw [loopF_clause_step c hwf.1 lws _ _ hlws hsplit fuel data]
          have hrec := ih [] (applyClause data c) fuel hcs' hwf.2 (by rfl)
            (by simp only [List.nil_append, List.length_append, List.length_cons,
                  List.length_nil] at hfuel ⊢
                have := renderClause_length_pos c
                omega)
          simp only [List.nil_append] at hrec
          rw [hrec]
          rfl
        · -- separator ","
          have e2 : (",".data ++ joinSep (",".data) (c2 :: cs2) : List Char) =
              ',' :: joinSep (",".data) (c2 :: cs2) := rfl
          have hsplit : SepSplit (",".data ++ joinSep (",".data) (c2 :: cs2))
              (joinSep (",".data) (c2 :: cs2)) := by
            rw [e2]
            exact SepSplit.comma _
          rw [loopF_clause_step c hwf.1 lws _ _ hlws hsplit fuel data]
          have hrec := ih [] (applyClause data c) fuel hcs' hwf.2 (by rfl)
            (by simp only [List.nil_append, List.length_append, List.length_cons,
                  List.length_nil] at hfuel ⊢
                have := renderClause_length_pos c
                omega)
          simp only [List.nil_append] at hrec
          rw [hrec]
          rfl
        · -- separator ", "
          have e2 : (", ".data ++ joinSep (", ".data) (c2 :: cs2) : List Char) =
              ',' :: ([' '] ++ joinSep (", ".data) (c2 :: cs2)) := rfl
          have hsplit : SepSplit (", ".data ++ joinSep (", ".data) (c2 :: cs2))
              ([' '] ++ joinSep (", ".data) (c2 :: cs2)) := by
            rw [e2]
            exact SepSplit.comma _
          rw [loopF_clause_step c hwf.1 lws _ _ hlws hsplit fuel data]
          have hrec := ih [' '] (applyClause data c) fuel hcs' hwf.2 (by rfl)
            (by simp only [List.length_append, List.length_cons,
                  List.length_nil] at hfuel ⊢
                have := renderClause_length_pos c
                omega)
          rw [hrec]
          rfl
        · -- separator newline-tab
          have hsplit : SepSplit ("\n\t".data ++ joinSep ("\n\t".data) (c2 :: cs2))
              (joinSep ("\n\t".data) (c2 :: cs2)) :=
            SepSplit.ws ['\n', '\t'] _ (by simp) (by rfl) hJhead
          rw [loopF_clause_step c hwf.1 lws _ _ hlws hsplit fuel data]
          have hrec := ih [] (applyClause data c) fuel hcs' hwf.2 (by rfl)
            (by simp only [List.nil_append, List.length_append, List.length_cons,
                  List.length_nil] at hfuel ⊢
                have := renderClause_length_pos c
                omega)
          simp only [List.nil_append] at hrec
          rw [hrec]
          rfl

theorem asn1_parse_rule_ne (input : List Char) (h : input.isEmpty = false) :
    asn1_parse_rule input =
      asn1_loopF input.length input DetectAsn1Data.default := by
  simp [asn1_parse_rule, h]

/-- Running `asn1_parse_rule` on a nonempty well-formed clause sequence joined
by any of the four separator forms: succeeds consuming everything, with
the clause effects folded left to right over the defaults. -/
theorem asn1_parse_join (sep : List Char)
    (hsep : sep = " ".data ∨ sep = ",".data ∨ sep = ", ".data ∨ sep = "\n\t".data)
    (cs : List Clause) (hne : cs ≠ []) (hwf : cs.all clauseWF = true) :
    asn1_parse_rule (joinSep sep cs) =
      .ok ([], applyAll DetectAsn1Data.default cs) := by
  cases cs with
  | nil => exact absurd rfl hne
  | cons c cs' =>
    obtain ⟨X, hX⟩ := joinSep_cons_shape sep c cs'
    obtain ⟨t0, ht0⟩ := render_head c
    have hneI : (joinSep sep (c :: cs')).isEmpty = false := by
      rw [hX, ht0]
      simp
    rw [asn1_parse_rule_ne _ hneI]
    have := asn1_loop_join sep hsep (c :: cs') [] DetectAsn1Data.default
      (joinSep sep (c :: cs')).length (by simp) hwf (by rfl) (by simp)
    simpa using this

theorem applyClause_max_frames (d : DetectAsn1Data) (c : Clause) :
    (applyClause d c).max_frames = d.max_frames := by
  cases c <;> rfl

theorem applyClause_oversize (d : DetectAsn1Data) (c : Clause) :
    (applyClause d c).oversize_length =
      (olOf c).elim d.oversize_length (fun p => some p.2) := by
  cases c <;> rfl

theorem applyClause_absolute (d : DetectAsn1Data) (c : Clause) :
    (applyClause d c).absolute_offset =
      (aoOf c).elim d.absolute_offset (fun p => some p.2) := by
  cases c <;> rfl

theorem applyClause_relative (d : DetectAsn1Data) (c : Clause) :
    (applyClause d c).relative_offset =
      (roOf c).elim d.relative_offset (fun p => some p.2) := by
  cases c <;> rfl

theorem applyAll_oversize (cs : List Clause) :
    ∀ (d : DetectAsn1Data), (applyAll d cs).oversize_length =
      (lastOcc (fun c => (olOf c).map Prod.snd) cs).elim d.oversize_length some := by
  induction cs with
  | nil => intro d; rfl
  | cons c cs ih =>
    intro d
    rw [applyAll_cons, ih]
    simp only [lastOcc]
    cases h : lastOcc (fun c => (olOf c).map Prod.snd) cs with
    | some v => rfl
    | none =>
      rw [applyClause_oversize]
      cases c <;> rfl

theorem applyAll_absolute (cs : List Clause) :
    ∀ (d : DetectAsn1Data), (applyAll d cs).absolute_offset =
      (lastOcc (fun c => (aoOf c).map Prod.snd) cs).elim d.absolute_offset some := by
  induction cs with
  | nil => intro d; rfl
  | cons c cs ih =>
    intro d
    rw [applyAll_cons, ih]
    simp only [lastOcc]
    cases h : lastOcc (fun c => (aoOf c).map Prod.snd) cs with
    | some v => rfl
    | none =>
      rw [applyClause_absolute]
      cases c <;> rfl

theorem applyAll_relative (cs : List Clause) :
    ∀ (d : DetectAsn1Data), (applyAll d cs).relative_offset =
      (lastOcc (fun c => (roOf c).map Prod.snd) cs).elim d.relative_offset some := by
  induction cs with
  | nil => intro d; rfl
  | cons c cs ih =>
    intro d
    rw [applyAll_cons, ih]
    simp only [lastOcc]
    cases h : lastOcc (fun c => (roOf c).map Prod.snd) cs with
    | some v => rfl
    | none =>
      rw [applyClause_relative]
      cases c <;> rfl

theorem applyAll_bitstring (cs : List Clause) :
    ∀ (d : DetectAsn1Data), (applyAll d cs).bitstring_overflow =
      (d.bitstring_overflow || cs.contains Clause.bitstring) := by
  induction cs with
  | nil => intro d; simp [applyAll]
  | cons c cs ih =>
    intro d
    rw [applyAll_cons, ih]
    cases c <;> simp [applyClause, List.contains_cons]

theorem applyAll_double (cs : List Clause) :
    ∀ (d : DetectAsn1Data), (applyAll d cs).double_overflow =
      (d.double_overflow || cs.contains Clause.double) := by
  induction cs with
  | nil => intro d; simp [applyAll]
  | cons c cs ih =>
    intro d
    rw [applyAll_cons, ih]
    cases c <;> simp [applyClause, List.contains_cons]

theorem applyAll_max_frames (cs : List Clause) :
    ∀ (d : DetectAsn1Data), (applyAll d cs).max_frames = d.max_frames := by
  induction cs with
  | nil => intro d; rfl
  | cons c cs ih =>
    intro d
    rw [applyAll_cons, ih, applyClause_max_frames]

/-!
## Consumption bounds: every parser leaves a suffix no longer than its
input, and a successful clause matcher consumes at least one character.
-/

theorem tag_le (t i r v : List Char) (h : tag t i = .ok (r, v)) :
    r.length ≤ i.length := by
  unfold tag at h
  by_cases hp : t.isPrefixOf i
  · simp only [hp, if_true] at h
    obtain ⟨h1, h2⟩ := Prod.mk.injEq .. ▸ (Except.ok.injEq .. ▸ h)
    rw [← h1]
    simp [List.length_drop]
  · simp [hp] at h

theorem tag_lt (t i r v : List Char) (ht : t ≠ []) (h : tag t i = .ok (r, v)) :
    r.length < i.length := by
  unfold tag at h
  by_cases hp : t.isPrefixOf i
  · simp only [hp, if_true] at h
    obtain ⟨h1, h2⟩ := Prod.mk.injEq .. ▸ (Except.ok.injEq .. ▸ h)
    have hle := isPrefixOf_length_le t i hp
    have htl : 1 ≤ t.length := by
      cases t with
      | nil => exact absurd rfl ht
      | cons a b => simp
    rw [← h1]
    simp only [List.length_drop]
    omega
  · simp [hp] at h

theorem digit1_le (i r v : List Char) (h : digit1 i = .ok (r, v)) :
    r.length ≤ i.length := by
  unfold digit1 at h
  by_cases hp : (i.takeWhile Char.isDigit).isEmpty
  · simp [hp] at h
  · simp only [hp, if_false, Bool.false_eq_true] at h
    obtain ⟨h1, h2⟩ := Prod.mk.injEq .. ▸ (Except.ok.injEq .. ▸ h)
    rw [← h1]
    simp [List.length_drop]

theorem multispace1_le (i r v : List Char) (h : multispace1 i = .ok (r, v)) :
    r.length ≤ i.length := by
  unfold multispace1 at h
  by_cases hp : (i.takeWhile isMS).isEmpty
  · simp [hp] at h
  · simp only [hp, if_false, Bool.false_eq_true] at h
    obtain ⟨h1, h2⟩ := Prod.mk.injEq .. ▸ (Except.ok.injEq .. ▸ h)
    rw [← h1]
    simp [List.length_drop]

theorem multispace0_le (i r v : List Char) (h : multispace0 i = .ok (r, v)) :
    r.length ≤ i.length := by
  unfold multispace0 at h
  obtain ⟨h1, h2⟩ := Prod.mk.injEq .. ▸ (Except.ok.injEq .. ▸ h)
  rw [← h1]
  simp [List.length_drop]

theorem map_res_le {α β : Type} (p : List Char → PRes α) (f : α → Option β)
    (hp : ∀ i r v, p i = .ok (r, v) → r.length ≤ i.length)
    (i r : List Char) (b : β) (h : map_res p f i = .ok (r, b)) :
    r.length ≤ i.length := by
  unfold map_res at h
  cases hpi : p i with
  | error e => simp [hpi] at h
  | ok x =>
    obtain ⟨r1, v⟩ := x
    cases hf : f v with
    | none => simp [hpi, hf] at h
    | some b2 =>
      simp only [hpi, hf] at h
      obtain ⟨h1, h2⟩ := Prod.mk.injEq .. ▸ (Except.ok.injEq .. ▸ h)
      rw [← h1]
      exact hp i r1 v hpi

theorem parse_u32_le (i r : List Char) (v : Nat)
    (h : parse_u32_number i = .ok (r, v)) : r.length ≤ i.length :=
  map_res_le digit1 parseRustU32 digit1_le i r v h

theorem opt_le {α : Type} (p : List Char → PRes α)
    (hp : ∀ i r v, p i = .ok (r, v) → r.length ≤ i.length)
    (i r : List Char) (o : Option α) (h : opt p i = .ok (r, o)) :
    r.length ≤ i.length := by
  unfold opt at h
  cases hpi : p i with
  | error e =>
    rw [hpi] at h
    obtain ⟨h1, h2⟩ := Prod.mk.injEq .. ▸ (Except.ok.injEq .. ▸ h)
    rw [← h1]
  | ok x =>
    obtain ⟨r1, v⟩ := x
    rw [hpi] at h
    obtain ⟨h1, h2⟩ := Prod.mk.injEq .. ▸ (Except.ok.injEq .. ▸ h)
    rw [← h1]
    exact hp i r1 v hpi

theorem parse_i32_le (i r : List Char) (v : Int)
    (h : parse_i32_number i = .ok (r, v)) : r.length ≤ i.length := by
  unfold parse_i32_number at h
  cases ho : opt (tag ['-']) i with
  | error e => simp [ho] at h
  | ok x =>
    obtain ⟨r1, o⟩ := x
    have hb1 : r1.length ≤ i.length := opt_le (tag ['-']) (tag_le ['-']) i r1 o ho
    cases hm : map_res digit1 parseRustI32 r1 with
    | error e => simp [ho, hm] at h
    | ok y =>
      obtain ⟨r2, d⟩ := y
      simp only [ho, hm] at h
      obtain ⟨h1, h2⟩ := Prod.mk.injEq .. ▸ (Except.ok.injEq .. ▸ h)
      have hb2 : r2.length ≤ r1.length :=
        map_res_le digit1 parseRustI32 digit1_le r1 r2 d hm
      rw [← h1]
      omega

theorem separated_pair_lt {α β γ : Type} (p : List Char → PRes α)
    (sep : List Char → PRes β) (q : List Char → PRes γ)
    (hp : ∀ i r v, p i = .ok (r, v) → r.length < i.length)
    (hsep : ∀ i r v, sep i = .ok (r, v) → r.length ≤ i.length)
    (hq : ∀ i r v, q i = .ok (r, v) → r.length ≤ i.length)
    (i r : List Char) (v : α × γ) (h : separated_pair p sep q i = .ok (r, v)) :
    r.length < i.length := by
  unfold separated_pair at h
  cases hpi : p i with
  | error e => simp [hpi] at h
  | ok x =>
    obtain ⟨r1, a⟩ := x
    cases hs : sep r1 with
    | error e => simp [hpi, hs] at h
    | ok y =>
      obtain ⟨r2, b⟩ := y
      cases hqr : q r2 with
      | error e => simp [hpi, hs, hqr] at h
      | ok z =>
        obtain ⟨r3, cv⟩ := z
        simp only [hpi, hs, hqr] at h
        obtain ⟨h1, h2⟩ := Prod.mk.injEq .. ▸ (Except.ok.injEq .. ▸ h)
        have b1 := hp i r1 a hpi
        have b2 := hsep r1 r2 b hs
        have b3 := hq r2 r3 cv hqr
        rw [← h1]
        omega

theorem bitstring_le (i r v : List Char) (h : bitstring_overflow i = .ok (r, v)) :
    r.length ≤ i.length := tag_le _ i r v h

theorem double_le (i r v : List Char) (h : double_overflow i = .ok (r, v)) :
    r.length ≤ i.length := tag_le _ i r v h

theorem bitstring_lt (i r v : List Char) (h : bitstring_overflow i = .ok (r, v)) :
    r.length < i.length := tag_lt _ i r v (by decide) h

theorem double_lt (i r v : List Char) (h : double_overflow i = .ok (r, v)) :
    r.length < i.length := tag_lt _ i r v (by decide) h

theorem oversize_lt (i r : List Char) (v : List Char × Nat)
    (h : oversize_length i = .ok (r, v)) : r.length < i.length :=
  separated_pair_lt _ _ _ (fun i r v h => tag_lt _ i r v (by decide) h)
    multispace1_le parse_u32_le i r v h

theorem absolute_lt (i r : List Char) (v : List Char × Nat)
    (h : absolute_offset i = .ok (r, v)) : r.length < i.length :=
  separated_pair_lt _ _ _ (fun i r v h => tag_lt _ i r v (by decide) h)
    multispace1_le parse_u32_le i r v h

theorem relative_lt (i r : List Char) (v : List Char × Int)
    (h : relative_offset i = .ok (r, v)) : r.length < i.length :=
  separated_pair_lt _ _ _ (fun i r v h => tag_lt _ i r v (by decide) h)
    multispace1_le parse_i32_le i r v h

theorem oversize_le (i r : List Char) (v : List Char × Nat)
    (h : oversize_length i = .ok (r, v)) : r.length ≤ i.length :=
  Nat.le_of_lt (oversize_lt i r v h)

theorem absolute_le (i r : List Char) (v : List Char × Nat)
    (h : absolute_offset i = .ok (r, v)) : r.length ≤ i.length :=
  Nat.le_of_lt (absolute_lt i r v h)

theorem relative_le (i r : List Char) (v : List Char × Int)
    (h : relative_offset i = .ok (r, v)) : r.length ≤ i.length :=
  Nat.le_of_lt (relative_lt i r v h)

theorem sepUnit_le (i r v : List Char) (h : sepUnit i = .ok (r, v)) :
    r.length ≤ i.length := by
  unfold sepUnit alt2 at h
  cases hm : multispace1 i with
  | ok x =>
    obtain ⟨r1, v1⟩ := x
    simp only [hm] at h
    obtain ⟨h1, h2⟩ := Prod.mk.injEq .. ▸ (Except.ok.injEq .. ▸ h)
    rw [← h1]
    exact multispace1_le i r1 v1 hm
  | error e =>
    simp only [hm] at h
    exact tag_le [','] i r v h

theorem optT_fst_le {α : Type} (p : List Char → PRes α)
    (hp : ∀ i r v, p i = .ok (r, v) → r.length ≤ i.length) (i : List Char) :
    (optT p i).1.length ≤ i.length := by
  cases hpi : p i with
  | ok x =>
    obtain ⟨r, v⟩ := x
    unfold optT
    simp only [hpi]
    exact hp i r v hpi
  | error e =>
    unfold optT
    simp [hpi]

theorem optT_fst_lt_of_some {α : Type} (p : List Char → PRes α)
    (hp : ∀ i r v, p i = .ok (r, v) → r.length < i.length) (i : List Char)
    (hs : (optT p i).2.isSome = true) : (optT p i).1.length < i.length := by
  cases hpi : p i with
  | ok x =>
    obtain ⟨r, v⟩ := x
    unfold optT
    simp only [hpi]
    exact hp i r v hpi
  | error e =>
    unfold optT at hs
    simp [hpi] at hs

theorem iterStep_fst_le (rest : List Char) :
    (iterStep rest).1.length ≤ rest.length := by
  simp only [iterStep]
  exact le_trans (optT_fst_le sepUnit sepUnit_le _)
    (le_trans (optT_fst_le relative_offset relative_le _)
      (le_trans (optT_fst_le absolute_offset absolute_le _)
        (le_trans (optT_fst_le oversize_length oversize_le _)
          (le_trans (optT_fst_le double_overflow double_le _)
            (le_trans (optT_fst_le bitstring_overflow bitstring_le _)
              (optT_fst_le multispace0 multispace0_le rest))))))

theorem iterStep_fst_lt (rest : List Char)
    (h : clauseMatched (iterStep rest).2 = true) :
    (iterStep rest).1.length < rest.length := by
  simp only [clauseMatched, Bool.or_eq_true, iterStep] at h ⊢
  have b1 := optT_fst_le multispace0 multispace0_le rest
  have b2 := optT_fst_le bitstring_overflow bitstring_le
    ((optT multispace0 rest).1)
  have b3 := optT_fst_le double_overflow double_le
    ((optT bitstring_overflow (optT multispace0 rest).1).1)
  have b4 := optT_fst_le oversize_length oversize_le
    ((optT double_overflow (optT bitstring_overflow (optT multispace0 rest).1).1).1)
  have b5 := optT_fst_le absolute_offset absolute_le
    ((optT oversize_length (optT double_overflow (optT bitstring_overflow
      (optT multispace0 rest).1).1).1).1)
  have b6 := optT_fst_le relative_offset relative_le
    ((optT absolute_offset (optT oversize_length (optT double_overflow
      (optT bitstring_overflow (optT multispace0 rest).1).1).1).1).1)
  have b7 := optT_fst_le sepUnit sepUnit_le
    ((optT relative_offset (optT absolute_offset (optT oversize_length
      (optT double_overflow (optT bitstring_overflow
        (optT multispace0 rest).1).1).1).1).1).1)
  rcases h with ⟨⟨⟨h | h⟩ | h⟩ | h⟩ | h
  · have := optT_fst_lt_of_some bitstring_overflow bitstring_lt _ h
    omega
  · have := optT_fst_lt_of_some double_overflow double_lt _ h
    omega
  · have := optT_fst_lt_of_some oversize_length oversize_lt _ h
    omega
  · have := optT_fst_lt_of_some absolute_offset absolute_lt _ h
    omega
  · have := optT_fst_lt_of_some relative_offset relative_lt _ h
    omega

/-- Fuel irrelevance for the loop: any fuel at least the length of the
remaining input produces the same result — every iteration that
continues strictly shortens the input, so at most `rest.length`
iterations ever run. The `noFuel` modelling artifact is therefore
unreachable from `asn1_parse_rule`, which supplies `input.length`. -/
theorem asn1_loopF_fuel_irrelevant : ∀ (n f1 f2 : Nat) (rest : List Char)
    (data : DetectAsn1Data), rest.length ≤ n → rest.length ≤ f1 →
    rest.length ≤ f2 → asn1_loopF f1 rest data = asn1_loopF f2 rest data := by
  intro n
  induction n with
  | zero =>
    intro f1 f2 rest data hn h1 h2
    have : rest = [] := List.eq_nil_of_length_eq_zero (Nat.le_zero.mp hn)
    subst this
    rw [asn1_loopF_nil, asn1_loopF_nil]
  | succ n ih =>
    intro f1 f2 rest data hn h1 h2
    cases rest with
    | nil => rw [asn1_loopF_nil, asn1_loopF_nil]
    | cons ch t =>
      have hlen : 1 ≤ (ch :: t).length := by simp
      cases f1 with
      | zero => simp at h1
      | succ a =>
        cases f2 with
        | zero => simp at h2
        | succ b =>
          have hne : (ch :: t).isEmpty = false := rfl
          simp only [asn1_loopF, hne, Bool.false_eq_true, if_false]
          rcases hit : iterStep (ch :: t) with ⟨next, out⟩
          have hnle : clauseMatched out = true → next.length < (ch :: t).length := by
            intro hm
            have := iterStep_fst_lt (ch :: t) (by rw [hit]; exact hm)
            rwa [hit] at this
          simp only [loopIter, hit]
          by_cases hbo : out.bitstring_overflow.isSome
          · have hd := hnle (by simp [clauseMatched, hbo])
            simp only [hbo, if_true]
            exact ih a b next _ (by simp only [List.length_cons] at hd hn h1 h2; omega) (by simp only [List.length_cons] at hd hn h1 h2; omega)
              (by simp only [List.length_cons] at hd hn h1 h2; omega)
          · simp only [hbo, Bool.false_eq_true, if_false]
            by_cases hdov : out.double_overflow.isSome
            · have hd := hnle (by simp [clauseMatched, hdov])
              simp only [hdov, if_true]
              exact ih a b next _ (by simp only [List.length_cons] at hd hn h1 h2; omega) (by simp only [List.length_cons] at hd hn h1 h2; omega)
                (by simp only [List.length_cons] at hd hn h1 h2; omega)
            · simp only [hdov, Bool.false_eq_true, if_false]
              cases hol : out.oversize_length with
              | some p =>
                obtain ⟨x, v⟩ := p
                have hd := hnle (by simp [clauseMatched, hol])
                exact ih a b next _ (by simp only [List.length_cons] at hd hn h1 h2; omega) (by simp only [List.length_cons] at hd hn h1 h2; omega)
                  (by simp only [List.length_cons] at hd hn h1 h2; omega)
              | none =>
                cases hao : out.absolute_offset with
                | some p =>
                  obtain ⟨x, v⟩ := p
                  have hd := hnle (by simp [clauseMatched, hao])
                  exact ih a b next _ (by simp only [List.length_cons] at hd hn h1 h2; omega) (by simp only [List.length_cons] at hd hn h1 h2; omega)
                    (by simp only [List.length_cons] at hd hn h1 h2; omega)
                | none =>
                  cases hro : out.relative_offset with
                  | some p =>
                    obtain ⟨x, v⟩ := p
                    have hd := hnle (by simp [clauseMatched, hro])
                    exact ih a b next _ (by simp only [List.length_cons] at hd hn h1 h2; omega) (by simp only [List.length_cons] at hd hn h1 h2; omega)
                      (by simp only [List.length_cons] at hd hn h1 h2; omega)
                  | none => rfl

/-- No loop iteration ever writes `max_frames`: a successful parse
leaves it at the value it started from. -/
theorem asn1_loopF_max_frames : ∀ (fuel : Nat) (rest : List Char)
    (data : DetectAsn1Data) (r : List Char) (d' : DetectAsn1Data),
    asn1_loopF fuel rest data = .ok (r, d') →
    d'.max_frames = data.max_frames := by
  intro fuel
  induction fuel with
  | zero =>
    intro rest data r d' h
    by_cases he : rest.isEmpty
    · simp only [asn1_loopF, he, if_true] at h
      simp only [Except.ok.injEq, Prod.mk.injEq] at h
      rw [← h.2]
    · simp [asn1_loopF, he] at h
  | succ fuel ih =>
    intro rest data r d' h
    by_cases he : rest.isEmpty
    · simp only [asn1_loopF, he, if_true] at h
      simp only [Except.ok.injEq, Prod.mk.injEq] at h
      rw [← h.2]
    · simp only [asn1_loopF, he, Bool.false_eq_true, if_false] at h
      rcases hit : iterStep rest with ⟨next, out⟩
      simp only [loopIter, hit] at h
      by_cases hbo : out.bitstring_overflow.isSome
      · simp only [hbo, if_true] at h
        exact ih next { data with bitstring_overflow := true } r d' h
      · simp only [hbo, Bool.false_eq_true, if_false] at h
        by_cases hdov : out.double_overflow.isSome
        · simp only [hdov, if_true] at h
          exact ih next { data with double_overflow := true } r d' h
        · simp only [hdov, Bool.false_eq_true, if_false] at h
          cases hol : out.oversize_length with
          | some p =>
            obtain ⟨x, v⟩ := p
            simp only [hol] at h
            exact ih next { data with oversize_length := some v } r d' h
          | none =>
            simp only [hol] at h
            cases hao : out.absolute_offset with
            | some p =>
              obtain ⟨x, v⟩ := p
              simp only [hao] at h
              exact ih next { data with absolute_offset := some v } r d' h
            | none =>
              simp only [hao] at h
              cases hro : out.relative_offset with
              | some p =>
                obtain ⟨x, v⟩ := p
                simp only [hro] at h
                exact ih next { data with relative_offset := some v } r d' h
              | none =>
                simp only [hro] at h
                simp at h

/-- Any successful `asn1_parse_rule` leaves `max_frames` at the default
30: no grammar clause writes that field. -/
theorem asn1_parse_max_frames (input r : List Char) (d : DetectAsn1Data)
    (h : asn1_parse_rule input = .ok (r, d)) : d.max_frames = 30 := by
  unfold asn1_parse_rule at h
  by_cases he : input.isEmpty
  · simp [he] at h
  · simp only [he, Bool.false_eq_true, if_false] at h
    exact asn1_loopF_max_frames input.length input DetectAsn1Data.default r d h

theorem parseRustU16_le (v : List Char) (n : Nat)
    (h : parseRustU16 v = some n) : n ≤ 65535 := by
  unfold parseRustU16 at h
  split at h <;> (simp at h; try omega)

theorem sepUnit_fail (i : List Char) (h1 : headNotB isMS i = true)
    (h2 : ∀ c, i.head? = some c → c ≠ ',') :
    sepUnit i = .error (i, .tagK) := by
  rw [sepUnit, alt2, multispace1_fail i h1]
  exact tag_head_ne ',' [] i h2

theorem parse_u32_overflow (ds tail : List Char) (h0 : ds ≠ [])
    (h1 : ds.all Char.isDigit = true) (h2 : headNotB Char.isDigit tail = true)
    (h3 : 4294967295 < digitsToNat ds) :
    parse_u32_number (ds ++ tail) = .error (ds ++ tail, .mapRes) := by
  rw [parse_u32_number, map_res, digit1_exact ds tail h0 h1 h2]
  have hn : ¬ digitsToNat ds ≤ 4294967295 := by omega
  simp [parseRustU32, hn]

theorem parse_i32_overflow (neg : Bool) (ds tail : List Char) (h0 : ds ≠ [])
    (h1 : ds.all Char.isDigit = true) (h2 : headNotB Char.isDigit tail = true)
    (h3 : 2147483647 < digitsToNat ds) :
    parse_i32_number ((if neg then ['-'] else []) ++ ds ++ tail) =
      .error (ds ++ tail, .mapRes) := by
  have hn : ¬ digitsToNat ds ≤ 2147483647 := by omega
  have hmr : map_res digit1 parseRustI32 (ds ++ tail) =
      .error (ds ++ tail, .mapRes) := by
    rw [map_res, digit1_exact ds tail h0 h1 h2]
    simp [parseRustI32, hn]
  cases neg with
  | true =>
    have e : ((if true then ['-'] else []) ++ ds ++ tail : List Char) =
        ['-'] ++ (ds ++ tail) := by
      simp [List.append_assoc]
    rw [parse_i32_number, e, opt_ok (tag ['-']) _ (ds ++ tail) ['-']
      (tag_self_append ['-'] (ds ++ tail))]
    simp [hmr]
  | false =>
    have hne : ∀ c, (ds ++ tail).head? = some c → c ≠ '-' := by
      intro c hc
      cases ds with
      | nil => exact absurd rfl h0
      | cons d t =>
        simp only [List.cons_append, List.head?_cons, Option.some_inj] at hc
        simp only [List.all_cons, Bool.and_eq_true] at h1
        rw [← hc]
        exact ne_of_bool_distinct d '-' h1.1 (by decide)
    have ht : tag ['-'] (ds ++ tail) = .error (ds ++ tail, .tagK) :=
      tag_head_ne '-' [] (ds ++ tail) hne
    have e : ((if false then ['-'] else []) ++ ds ++ tail : List Char) =
        ds ++ tail := by simp
    rw [parse_i32_number, e, opt_err (tag ['-']) (ds ++ tail) _ ht]
    simp [hmr]

theorem oversize_overflow_fail (ds tail : List Char) (h0 : ds ≠ [])
    (h1 : ds.all Char.isDigit = true) (h2 : headNotB Char.isDigit tail = true)
    (h3 : 4294967295 < digitsToNat ds) :
    oversize_length ("oversize_length ".data ++ ds ++ tail) =
      .error (ds ++ tail, .mapRes) := by
  have e : "oversize_length ".data ++ ds ++ tail =
      "oversize_length".data ++ (' ' :: (ds ++ tail)) := by
    have h : "oversize_length ".data = "oversize_length".data ++ [' '] := rfl
    simp [h, List.append_assoc]
  have hms : multispace1 (' ' :: (ds ++ tail)) = .ok (ds ++ tail, [' ']) := by
    have h : (' ' :: (ds ++ tail) : List Char) = [' '] ++ (ds ++ tail) := rfl
    rw [h]
    exact multispace1_exact [' '] (ds ++ tail) (by simp) (by decide)
      (by rw [headNotB_append isMS ds tail h0]; exact headNotB_digit_of_all ds h1)
  rw [oversize_length, e, separated_pair, tag_self_append]
  simp [hms, parse_u32_overflow ds tail h0 h1 h2 h3]

theorem absolute_overflow_fail (ds tail : List Char) (h0 : ds ≠ [])
    (h1 : ds.all Char.isDigit = true) (h2 : headNotB Char.isDigit tail = true)
    (h3 : 4294967295 < digitsToNat ds) :
    absolute_offset ("absolute_offset ".data ++ ds ++ tail) =
      .error (ds ++ tail, .mapRes) := by
  have e : "absolute_offset ".data ++ ds ++ tail =
      "absolute_offset".data ++ (' ' :: (ds ++ tail)) := by
    have h : "absolute_offset ".data = "absolute_offset".data ++ [' '] := rfl
    simp [h, List.append_assoc]
  have hms : multispace1 (' ' :: (ds ++ tail)) = .ok (ds ++ tail, [' ']) := by
    have h : (' ' :: (ds ++ tail) : List Char) = [' '] ++ (ds ++ tail) := rfl
    rw [h]
    exact multispace1_exact [' '] (ds ++ tail) (by simp) (by decide)
      (by rw [headNotB_append isMS ds tail h0]; exact headNotB_digit_of_all ds h1)
  rw [absolute_offset, e, separated_pair, tag_self_append]
  simp [hms, parse_u32_overflow ds tail h0 h1 h2 h3]

theorem relative_overflow_fail (neg : Bool) (ds tail : List Char) (h0 : ds ≠ [])
    (h1 : ds.all Char.isDigit = true) (h2 : headNotB Char.isDigit tail = true)
    (h3 : 2147483647 < digitsToNat ds) :
    relative_offset ("relative_offset ".data ++ (if neg then ['-'] else []) ++ ds ++ tail) =
      .error (ds ++ tail, .mapRes) := by
  have e : "relative_offset ".data ++ (if neg then ['-'] else []) ++ ds ++ tail =
      "relative_offset".data ++ (' ' :: ((if neg then ['-'] else []) ++ (ds ++ tail))) := by
    have h : "relative_offset ".data = "relative_offset".data ++ [' '] := rfl
    simp [h, List.append_assoc]
  have hsgn : headNotB isMS ((if neg then ['-'] else []) ++ (ds ++ tail)) = true := by
    cases neg with
    | true => rfl
    | false =>
      have e2 : ((if false then ['-'] else []) ++ (ds ++ tail) : List Char) =
          ds ++ tail := by simp
      rw [e2, headNotB_append isMS ds tail h0]
      exact headNotB_digit_of_all ds h1
  have hms : multispace1 (' ' :: ((if neg then ['-'] else []) ++ (ds ++ tail))) =
      .ok ((if neg then ['-'] else []) ++ (ds ++ tail), [' ']) := by
    have h : (' ' :: ((if neg then ['-'] else []) ++ (ds ++ tail)) : List Char) =
        [' '] ++ ((if neg then ['-'] else []) ++ (ds ++ tail)) := rfl
    rw [h]
    exact multispace1_exact [' '] _ (by simp) (by decide) hsgn
  have hpi : parse_i32_number ((if neg then ['-'] else []) ++ (ds ++ tail)) =
      .error (ds ++ tail, .mapRes) := by
    rw [← List.append_assoc]
    exact parse_i32_overflow neg ds tail h0 h1 h2 h3
  rw [relative_offset, e, separated_pair, tag_self_append]
  simp [hms, hpi]

/-- On an input made of leading whitespace, one rendered clause whose
numeric argument overflows its width, and any tail not starting with a
digit, the loop-body tuple matches no clause at all: the overflow
error from the number parser is converted to a non-match by `opt`, and
the other four matchers fail on the first letter of the keyword. -/
theorem iterStep_overflow (c : Clause) (hbad : clauseOverflow c = true)
    (lws tail : List Char) (hlws : lws.all isMS = true)
    (hnd : headNotB Char.isDigit tail = true) :
    ∃ w, iterStep (lws ++ (renderClause c ++ tail)) =
      (renderClause c ++ tail, ⟨w, none, none, none, none, none, none⟩) := by
  have hhead : headNotB isMS (renderClause c ++ tail) = true := by
    cases c <;> rfl
  have h1 : optT multispace0 (lws ++ (renderClause c ++ tail)) =
      (renderClause c ++ tail, some lws) :=
    optT_ok _ _ _ _ (multispace0_exact lws _ hlws hhead)
  cases c with
  | bitstring => simp [clauseOverflow] at hbad
  | double => simp [clauseOverflow] at hbad
  | oversize ds =>
    simp only [clauseOverflow, Bool.and_eq_true, Bool.not_eq_true', decide_eq_true_eq] at hbad
    obtain ⟨⟨hE, hall⟩, hgt⟩ := hbad
    have h0 : ds ≠ [] := ne_nil_of_isEmpty_false ds hE
    have e : renderClause (.oversize ds) ++ tail =
        'o' :: ("versize_length ".data ++ ds ++ tail) := by
      simp [renderClause, List.append_assoc]
    have h2 := optT_err _ _ _ (bitstring_fail (renderClause (.oversize ds) ++ tail)
      (by rw [e]; exact headNe_cons 'o' _ 'b' (by decide)))
    have h3 := optT_err _ _ _ (double_fail (renderClause (.oversize ds) ++ tail)
      (by rw [e]; exact headNe_cons 'o' _ 'd' (by decide)))
    have h4 : optT oversize_length (renderClause (.oversize ds) ++ tail) =
        (renderClause (.oversize ds) ++ tail, none) :=
      optT_err _ _ _ (oversize_overflow_fail ds tail h0 hall hnd hgt)
    have h5 := optT_err _ _ _ (absolute_fail (renderClause (.oversize ds) ++ tail)
      (by rw [e]; exact headNe_cons 'o' _ 'a' (by decide)))
    have h6 := optT_err _ _ _ (relative_fail (renderClause (.oversize ds) ++ tail)
      (by rw [e]; exact headNe_cons 'o' _ 'r' (by decide)))
    have h7 := optT_err _ _ _ (sepUnit_fail (renderClause (.oversize ds) ++ tail)
      hhead (by rw [e]; exact headNe_cons 'o' _ ',' (by decide)))
    exact ⟨some lws, iterStep_eq _ _ _ _ _ _ _ _ _ _ _ _ _ _ _ h1 h2 h3 h4 h5 h6 h7⟩
  | absolute ds =>
    simp only [clauseOverflow, Bool.and_eq_true, Bool.not_eq_true', decide_eq_true_eq] at hbad
    obtain ⟨⟨hE, hall⟩, hgt⟩ := hbad
    have h0 : ds ≠ [] := ne_nil_of_isEmpty_false ds hE
    have e : renderClause (.absolute ds) ++ tail =
        'a' :: ("bsolute_offset ".data ++ ds ++ tail) := by
      simp [renderClause, List.append_assoc]
    have h2 := optT_err _ _ _ (bitstring_fail (renderClause (.absolute ds) ++ tail)
      (by rw [e]; exact headNe_cons 'a' _ 'b' (by decide)))
    have h3 := optT_err _ _ _ (double_fail (renderClause (.absolute ds) ++ tail)
      (by rw [e]; exact headNe_cons 'a' _ 'd' (by decide)))
    have h4 := optT_err _ _ _ (oversize_fail (renderClause (.absolute ds) ++ tail)
      (by rw [e]; exact headNe_cons 'a' _ 'o' (by decide)))
    have h5 : optT absolute_offset (renderClause (.absolute ds) ++ tail) =
        (renderClause (.absolute ds) ++ tail, none) :=
      optT_err _ _ _ (absolute_overflow_fail ds tail h0 hall hnd hgt)
    have h6 := optT_err _ _ _ (relative_fail (renderClause (.absolute ds) ++ tail)
      (by rw [e]; exact headNe_cons 'a' _ 'r' (by decide)))
    have h7 := optT_err _ _ _ (sepUnit_fail (renderClause (.absolute ds) ++ tail)
      hhead (by rw [e]; exact headNe_cons 'a' _ ',' (by decide)))
    exact ⟨some lws, iterStep_eq _ _ _ _ _ _ _ _ _ _ _ _ _ _ _ h1 h2 h3 h4 h5 h6 h7⟩
  | relative neg ds =>
    simp only [clauseOverflow, Bool.and_eq_true, Bool.not_eq_true', decide_eq_true_eq] at hbad
    obtain ⟨⟨hE, hall⟩, hgt⟩ := hbad
    have h0 : ds ≠ [] := ne_nil_of_isEmpty_false ds hE
    have e : renderClause (.relative neg ds) ++ tail =
        'r' :: ("elative_offset ".data ++ (if neg then ['-'] else []) ++ ds ++ tail) := by
      simp [renderClause, List.append_assoc]
    have h2 := optT_err _ _ _ (bitstring_fail (renderClause (.relative neg ds) ++ tail)
      (by rw [e]; exact headNe_cons 'r' _ 'b' (by decide)))
    have h3 := optT_err _ _ _ (double_fail (renderClause (.relative neg ds) ++ tail)
      (by rw [e]; exact headNe_cons 'r' _ 'd' (by decide)))
    have h4 := optT_err _ _ _ (oversize_fail (renderClause (.relative neg ds) ++ tail)
      (by rw [e]; exact headNe_cons 'r' _ 'o' (by decide)))
    have h5 := optT_err _ _ _ (absolute_fail (renderClause (.relative neg ds) ++ tail)
      (by rw [e]; exact headNe_cons 'r' _ 'a' (by decide)))
    have h6 : optT relative_offset (renderClause (.relative neg ds) ++ tail) =
        (renderClause (.relative neg ds) ++ tail, none) :=
      optT_err _ _ _ (relative_overflow_fail neg ds tail h0 hall hnd hgt)
    have h7 := optT_err _ _ _ (sepUnit_fail (renderClause (.relative neg ds) ++ tail)
      hhead (by rw [e]; exact headNe_cons 'r' _ ',' (by decide)))
    exact ⟨some lws, iterStep_eq _ _ _ _ _ _ _ _ _ _ _ _ _ _ _ h1 h2 h3 h4 h5 h6 h7⟩

/-- An iteration that reaches an overflowing clause fails terminally
with `ErrorKind::Verify` at the `rest` of that very iteration. -/
theorem loopF_overflow_step (c : Clause) (hbad : clauseOverflow c = true)
    (lws tail : List Char) (hlws : lws.all isMS = true)
    (hnd : headNotB Char.isDigit tail = true) (fuel : Nat)
    (data : DetectAsn1Data) :
    asn1_loopF (fuel + 1) (lws ++ (renderClause c ++ tail)) data =
      .error (lws ++ (renderClause c ++ tail), .verify) := by
  obtain ⟨w, hit⟩ := iterStep_overflow c hbad lws tail hlws hnd
  have hne2 : (lws ++ (renderClause c ++ tail)).isEmpty = false := by
    obtain ⟨t0, ht0⟩ := render_head c
    rw [ht0]
    cases lws <;> simp
  rw [asn1_loopF_step fuel _ data _ _ hne2 hit]
  rfl

/-- Every error the loop produces (when given sufficient fuel, as
`asn1_parse_rule` does) carries the `Verify` kind: the tuple of
`opt(...)` members never fails, so the only failure is the
no-clause-matched branch. -/
theorem asn1_loopF_error_verify : ∀ (fuel : Nat) (rest : List Char)
    (data : DetectAsn1Data) (e : List Char) (k : ErrKind),
    rest.length ≤ fuel → asn1_loopF fuel rest data = .error (e, k) →
    k = .verify := by
  intro fuel
  induction fuel with
  | zero =>
    intro rest data e k hle h
    have : rest = [] := List.eq_nil_of_length_eq_zero (Nat.le_zero.mp hle)
    subst this
    rw [asn1_loopF_nil] at h
    simp at h
  | succ fuel ih =>
    intro rest data e k hle h
    by_cases he : rest.isEmpty
    · simp only [asn1_loopF, he, if_true] at h
      simp at h
    · simp only [asn1_loopF, he, Bool.false_eq_true, if_false] at h
      rcases hit : iterStep rest with ⟨next, out⟩
      have hnle : clauseMatched out = true → next.length < rest.length := by
        intro hm
        have := iterStep_fst_lt rest (by rw [hit]; exact hm)
        rwa [hit] at this
      simp only [loopIter, hit] at h
      by_cases hbo : out.bitstring_overflow.isSome
      · have hd := hnle (by simp [clauseMatched, hbo])
        simp only [hbo, if_true] at h
        exact ih next _ e k (by omega) h
      · simp only [hbo, Bool.false_eq_true, if_false] at h
        by_cases hdov : out.double_overflow.isSome
        · have hd := hnle (by simp [clauseMatched, hdov])
          simp only [hdov, if_true] at h
          exact ih next _ e k (by omega) h
        · simp only [hdov, Bool.false_eq_true, if_false] at h
          cases hol : out.oversize_length with
          | some p =>
            obtain ⟨x, v⟩ := p
            have hd := hnle (by simp [clauseMatched, hol])
            simp only [hol] at h
            exact ih next _ e k (by omega) h
          | none =>
            simp only [hol] at h
            cases hao : out.absolute_offset with
            | some p =>
              obtain ⟨x, v⟩ := p
              have hd := hnle (by simp [clauseMatched, hao])
              simp only [hao] at h
              exact ih next _ e k (by omega) h
            | none =>
              simp only [hao] at h
              cases hro : out.relative_offset with
              | some p =>
                obtain ⟨x, v⟩ := p
                have hd := hnle (by simp [clauseMatched, hro])
                simp only [hro] at h
                exact ih next _ e k (by omega) h
              | none =>
                simp only [hro] at h
                simp only [Except.error.injEq, Prod.mk.injEq] at h
                exact h.2.symm

/-- Every error `asn1_parse_rule` returns carries either the `Eof`
(EmptyInput) kind or the `Verify` (UnrecognizedOption) kind; in
particular the `MapRes` (NumericOverflow) kind never surfaces from the
rule parser. -/
theorem asn1_parse_error_kinds (input e : List Char) (k : ErrKind)
    (h : asn1_parse_rule input = .error (e, k)) : k = .eof ∨ k = .verify := by
  unfold asn1_parse_rule at h
  by_cases he : input.isEmpty
  · simp only [he, if_true] at h
    simp only [Except.error.injEq, Prod.mk.injEq] at h
    left
    exact h.2.symm
  · simp only [he, Bool.false_eq_true, if_false] at h
    right
    exact asn1_loopF_error_verify input.length input DetectAsn1Data.default e k
      le_rfl h

/-- The loop, run on any clause sequence of well-formed clauses up to
one whose numeric argument overflows its width (joined by any of the
four separator forms): it consumes the well-formed clauses, then fails
terminally with `Verify` at the remainder that starts at the
overflowing clause (possibly preceded by not-yet-consumed separator
whitespace). -/
theorem asn1_loop_join_overflow (sep : List Char)
    (hsep : sep = " ".data ∨ sep = ",".data ∨ sep = ", ".data ∨ sep = "\n\t".data)
    (bad : Clause) (hbad : clauseOverflow bad = true) (post : List Clause) :
    ∀ (pre : List Clause) (lws : List Char) (data : DetectAsn1Data) (fuel : Nat),
      pre.all clauseWF = true → lws.all isMS = true →
      (lws ++ joinSep sep (pre ++ bad :: post)).length ≤ fuel →
      ∃ lws2, lws2.all isMS = true ∧
        asn1_loopF fuel (lws ++ joinSep sep (pre ++ bad :: post)) data =
          .error (lws2 ++ joinSep sep (bad :: post), .verify) := by
  intro pre
  induction pre with
  | nil =>
    intro lws data fuel hwf hlws hfuel
    refine ⟨lws, hlws, ?_⟩
    simp only [List.nil_append] at hfuel ⊢
    have hlen : 1 ≤ (lws ++ joinSep sep (bad :: post)).length := by
      rw [List.length_append]
      have := joinSep_length_pos sep bad post
      omega
    cases post with
    | nil =>
      have e : lws ++ joinSep sep [bad] = lws ++ (renderClause bad ++ []) := by
        simp [joinSep_single]
      cases fuel with
      | zero => omega
      | succ fuel =>
        rw [e, loopF_overflow_step bad hbad lws [] hlws (by rfl) fuel data]
    | cons p2 post2 =>
      have hcs : (p2 :: post2 : List Clause) ≠ [] := by simp
      have e : lws ++ joinSep sep (bad :: p2 :: post2) =
          lws ++ (renderClause bad ++ (sep ++ joinSep sep (p2 :: post2))) := by
        rw [joinSep_cons2 sep bad (p2 :: post2) hcs]
      have hndtail : headNotB Char.isDigit (sep ++ joinSep sep (p2 :: post2)) = true := by
        rcases hsep with hs | hs | hs | hs <;> subst hs <;> rfl
      cases fuel with
      | zero => omega
      | succ fuel =>
        rw [e, loopF_overflow_step bad hbad lws _ hlws hndtail fuel data]
  | cons p pre2 ih =>
    intro lws data fuel hwf hlws hfuel
    simp only [List.cons_append] at hfuel ⊢
    simp only [List.all_cons, Bool.and_eq_true] at hwf
    have hcs : (pre2 ++ bad :: post : List Clause) ≠ [] := by simp
    have hJhead : headNotB isMS (joinSep sep (pre2 ++ bad :: post)) = true :=
      join_headNotMS sep _ hcs
    have e : lws ++ joinSep sep (p :: (pre2 ++ bad :: post)) =
        lws ++ (renderClause p ++ (sep ++ joinSep sep (pre2 ++ bad :: post))) := by
      rw [joinSep_cons2 sep p _ hcs]
    have hlen : 1 ≤ (lws ++ joinSep sep (p :: (pre2 ++ bad :: post))).length := by
      rw [List.length_append]
      have := joinSep_length_pos sep p (pre2 ++ bad :: post)
      omega
    cases fuel with
    | zero => omega
    | succ fuel =>
      rw [e] at hfuel ⊢
      rcases hsep with hs | hs | hs | hs <;> subst hs
      · have hsplit : SepSplit (" ".data ++ joinSep (" ".data) (pre2 ++ bad :: post))
            (joinSep (" ".data) (pre2 ++ bad :: post)) :=
          SepSplit.ws [' '] _ (by simp) (by rfl) hJhead
        rw [loopF_clause_step p hwf.1 lws _ _ hlws hsplit fuel data]
        have hrec := ih [] (applyClause data p) fuel hwf.2 (by rfl)
          (by simp only [List.nil_append, List.length_append, List.length_cons,
                List.length_nil] at hfuel ⊢
              have := renderClause_length_pos p
              omega)
        simpa using hrec
      · have e2 : (",".data ++ joinSep (",".data) (pre2 ++ bad :: post) : List Char) =
            ',' :: joinSep (",".data) (pre2 ++ bad :: post) := rfl
        have hsplit : SepSplit (",".data ++ joinSep (",".data) (pre2 ++ bad :: post))
            (joinSep (",".data) (pre2 ++ bad :: post)) := by
          rw [e2]
          exact SepSplit.comma _
        rw [loopF_clause_step p hwf.1 lws _ _ hlws hsplit fuel data]
        have hrec := ih [] (applyClause data p) fuel hwf.2 (by rfl)
          (by simp only [List.nil_append, List.length_append, List.length_cons,
                List.length_nil] at hfuel ⊢
              have := renderClause_length_pos p
              omega)
        simpa using hrec
      · have e2 : (", ".data ++ joinSep (", ".data) (pre2 ++ bad :: post) : List Char) =
            ',' :: ([' '] ++ joinSep (", ".data) (pre2 ++ bad :: post)) := rfl
        have hsplit : SepSplit (", ".data ++ joinSep (", ".data) (pre2 ++ bad :: post))
            ([' '] ++ joinSep (", ".data) (pre2 ++ bad :: post)) := by
          rw [e2]
          exact SepSplit.comma _
        rw [loopF_clause_step p hwf.1 lws _ _ hlws hsplit fuel data]
        exact ih [' '] (applyClause data p) fuel hwf.2 (by rfl)
          (by simp only [List.length_append, List.length_cons,
                List.length_nil] at hfuel ⊢
              have := renderClause_length_pos p
              omega)
      · have hsplit : SepSplit ("\n\t".data ++ joinSep ("\n\t".data) (pre2 ++ bad :: post))
            (joinSep ("\n\t".data) (pre2 ++ bad :: post)) :=
          SepSplit.ws ['\n', '\t'] _ (by simp) (by rfl) hJhead
        rw [loopF_clause_step p hwf.1 lws _ _ hlws hsplit fuel data]
        have hrec := ih [] (applyClause data p) fuel hwf.2 (by rfl)
          (by simp only [List.nil_append, List.length_append, List.length_cons,
                List.length_nil] at hfuel ⊢
              have := renderClause_length_pos p
              omega)
        simpa using hrec

/-- Running `asn1_parse_rule` on a clause sequence containing one
overflowing numeric clause after well-formed ones: the parse fails with
`Verify` carrying the unconsumed remainder starting at the overflowing
clause (up to not-yet-consumed separator whitespace before it). -/
theorem asn1_parse_join_overflow (sep : List Char)
    (hsep : sep = " ".data ∨ sep = ",".data ∨ sep = ", ".data ∨ sep = "\n\t".data)
    (pre post : List Clause) (bad : Clause)
    (hpre : pre.all clauseWF = true) (hbad : clauseOverflow bad = true) :
    ∃ lws2, lws2.all isMS = true ∧
      asn1_parse_rule (joinSep sep (pre ++ bad :: post)) =
        .error (lws2 ++ joinSep sep (bad :: post), .verify) := by
  obtain ⟨c0, l0, hl⟩ : ∃ c0 l0, pre ++ bad :: post = c0 :: l0 := by
    cases pre <;> exact ⟨_, _, rfl⟩
  have hne2 : (joinSep sep (pre ++ bad :: post)).isEmpty = false := by
    rw [hl]
    obtain ⟨X, hX⟩ := joinSep_cons_shape sep c0 l0
    obtain ⟨t0, ht0⟩ := render_head c0
    rw [hX, ht0]
    simp
  rw [asn1_parse_rule_ne _ hne2]
  have := asn1_loop_join_overflow sep hsep bad hbad post pre []
    DetectAsn1Data.default (joinSep sep (pre ++ bad :: post)).length hpre
    (by rfl) (by simp)
  simpa using this

/-!
## The claims
-/

/-- Claim C1, counterexample: the claim says `-2147483648` is accepted
by the signed argument parser and yields `-2147483648`; in the code the
magnitude is parsed with `parse::<i32>()`, so the digit sequence
`2147483648` overflows and `parse_i32_number` fails with the
`MapRes` (NumericOverflow) kind instead. -/
theorem c1_counterexample :
    parse_i32_number ("-2147483648".data) =
      .error ("2147483648".data, .mapRes) := by
  decide

/-- Claim C1, amended: for every argument of an optional leading `-`
followed by a decimal digit sequence, `parse_i32_number` composes the
sign multiplier with the magnitude parsed as a signed 32-bit value, and
fails (with the NumericOverflow kind, at the digit sequence) exactly
when the magnitude exceeds `2147483647`; in particular `-0` is accepted
and yields `0`, while `-2147483648` is rejected. -/
theorem c1_parse_i32_sign_magnitude (neg : Bool) (ds : List Char)
    (h0 : ds ≠ []) (h1 : ds.all Char.isDigit = true) :
    parse_i32_number ((if neg then ['-'] else []) ++ ds) =
      (if digitsToNat ds ≤ 2147483647
       then .ok ([], (digitsToNat ds : Int) * (if neg then -1 else 1))
       else .error (ds, .mapRes)) := by
  by_cases hle : digitsToNat ds ≤ 2147483647
  · rw [if_pos hle]
    have := parse_i32_exact neg ds [] h0 h1 (by rfl) hle
    rwa [List.append_nil] at this
  · rw [if_neg hle]
    have hd : digit1 ds = .ok ([], ds) := by
      have := digit1_exact ds [] h0 h1 (by rfl)
      rwa [List.append_nil] at this
    have hmr : map_res digit1 parseRustI32 ds = .error (ds, .mapRes) := by
      rw [map_res, hd]
      simp [parseRustI32, hle]
    cases neg with
    | true =>
      have e : ((if true then ['-'] else []) ++ ds : List Char) = ['-'] ++ ds := by
        simp
      rw [parse_i32_number, e, opt_ok (tag ['-']) _ ds ['-'] (tag_self_append ['-'] ds)]
      simp [hmr]
    | false =>
      have hne2 : ∀ c, ds.head? = some c → c ≠ '-' := by
        intro c hc
        cases ds with
        | nil => exact absurd rfl h0
        | cons d t =>
          simp only [List.head?_cons, Option.some_inj] at hc
          simp only [List.all_cons, Bool.and_eq_true] at h1
          rw [← hc]
          exact ne_of_bool_distinct d '-' h1.1 (by decide)
      have ht : tag ['-'] ds = .error (ds, .tagK) := tag_head_ne '-' [] ds hne2
      have e : ((if false then ['-'] else []) ++ ds : List Char) = ds := by simp
      rw [parse_i32_number, e, opt_err (tag ['-']) ds _ ht]
      simp [hmr]

/-- Witness for C1's amended theorem at `-0`: accepted, yields `0`. -/
theorem c1_parse_i32_sign_magnitude_witness :
    (['0'] : List Char) ≠ [] ∧ (['0'] : List Char).all Char.isDigit = true ∧
    parse_i32_number ((if true then ['-'] else []) ++ ['0']) =
      (if digitsToNat ['0'] ≤ 2147483647
       then .ok ([], (digitsToNat ['0'] : Int) * (if true then -1 else 1))
       else .error (['0'], .mapRes)) :=
  ⟨by decide, by decide, c1_parse_i32_sign_magnitude true ['0'] (by decide) (by decide)⟩

/-- Claim C2, counterexample: on `oversize_length 4294967296` (digits
beyond the unsigned 32-bit range) `asn1_parse_rule` fails not with the
NumericOverflow (`MapRes`) kind but with the same `Verify`
(UnrecognizedOption) kind as for unknown keywords: the overflow error
is swallowed by the `opt(...)` wrapper of the clause matcher. -/
theorem c2_counterexample :
    asn1_parse_rule ("oversize_length 4294967296".data) =
      .error ("oversize_length 4294967296".data, .verify) ∧
    ErrKind.verify ≠ ErrKind.mapRes := by
  constructor
  · decide
  · decide

/-- Claim C2, amended: for every input in which a clause’s numeric
argument digit sequence exceeds the target integer width — any
sequence of well-formed clauses with one overflowing numeric clause,
joined by any of the four separator forms (for example
`oversize_length 4294967296`) — `asn1_parse_rule` fails, but with the
UnrecognizedOption (`Verify`) kind carrying the unconsumed remainder
starting at the overflowing clause; the NumericOverflow (`MapRes`)
kind is raised by the number parsers themselves (`parse_u32_number`
and `parse_i32_number` on every overflowing digit sequence) and is
converted to a non-match by the `opt(...)` wrappers: every error
`asn1_parse_rule` returns carries the `Eof` or `Verify` kind, so
`MapRes` never surfaces from it. -/
theorem c2_overflow_error_kind (sep : List Char)
    (hsep : sep = " ".data ∨ sep = ",".data ∨ sep = ", ".data ∨ sep = "\n\t".data)
    (pre post : List Clause) (bad : Clause)
    (hpre : pre.all clauseWF = true) (hbad : clauseOverflow bad = true) :
    (∃ lws2, lws2.all isMS = true ∧
      asn1_parse_rule (joinSep sep (pre ++ bad :: post)) =
        .error (lws2 ++ joinSep sep (bad :: post), .verify)) ∧
    (∀ (ds : List Char), ds ≠ [] → ds.all Char.isDigit = true → 4294967295 < digitsToNat ds →
      parse_u32_number ds = .error (ds, .mapRes)) ∧
    (∀ (neg : Bool) (ds : List Char), ds ≠ [] → ds.all Char.isDigit = true → 2147483647 < digitsToNat ds →
      parse_i32_number ((if neg then ['-'] else []) ++ ds) = .error (ds, .mapRes)) ∧
    (∀ input e k, asn1_parse_rule input = .error (e, k) → k = .eof ∨ k = .verify) := by
  refine ⟨asn1_parse_join_overflow sep hsep pre post bad hpre hbad, ?_, ?_,
    asn1_parse_error_kinds⟩
  · intro ds h0 h1 h3
    have := parse_u32_overflow ds [] h0 h1 (by rfl) h3
    rwa [List.append_nil] at this
  · intro neg ds h0 h1 h3
    have := parse_i32_overflow neg ds [] h0 h1 (by rfl) h3
    rwa [List.append_nil, List.append_nil] at this

/-- Witness for C2’s amended theorem at the single overflowing
clause `oversize_length 4294967296` with the space separator. -/
theorem c2_overflow_error_kind_witness :
    (" ".data = " ".data ∨ " ".data = ",".data ∨ " ".data = ", ".data ∨
      " ".data = "\n\t".data) ∧
    (([] : List Clause).all clauseWF = true) ∧
    (clauseOverflow (Clause.oversize ("4294967296".data)) = true) ∧
    ((∃ lws2, lws2.all isMS = true ∧
      asn1_parse_rule (joinSep (" ".data) ([] ++ Clause.oversize ("4294967296".data) :: [])) =
        .error (lws2 ++ joinSep (" ".data) (Clause.oversize ("4294967296".data) :: []), .verify)) ∧
    (∀ (ds : List Char), ds ≠ [] → ds.all Char.isDigit = true → 4294967295 < digitsToNat ds →
      parse_u32_number ds = .error (ds, .mapRes)) ∧
    (∀ (neg : Bool) (ds : List Char), ds ≠ [] → ds.all Char.isDigit = true → 2147483647 < digitsToNat ds →
      parse_i32_number ((if neg then ['-'] else []) ++ ds) = .error (ds, .mapRes)) ∧
    (∀ input e k, asn1_parse_rule input = .error (e, k) → k = .eof ∨ k = .verify)) :=
  ⟨by decide, by decide, by decide,
    c2_overflow_error_kind (" ".data) (by decide) [] []
      (Clause.oversize ("4294967296".data)) (by decide) (by decide)⟩

/-- Claim C3: on the abutted input `bitstring_overflowdouble_overflow`
the parse succeeds in a single iteration whose tuple consumes the whole
input and matches both keywords, but only the first clause's effect is
applied: the result has `bitstring_overflow = true` and
`double_overflow = false` — the second clause is silently dropped. -/
theorem c3_abutting_keywords_first_clause_wins :
    asn1_parse_rule ("bitstring_overflowdouble_overflow".data) =
      .ok ([], { bitstring_overflow := true, double_overflow := false,
                 oversize_length := none, absolute_offset := none,
                 relative_offset := none, max_frames := 30 }) ∧
    (iterStep ("bitstring_overflowdouble_overflow".data)).1 = [] ∧
    (iterStep ("bitstring_overflowdouble_overflow".data)).2.bitstring_overflow.isSome = true ∧
    (iterStep ("bitstring_overflowdouble_overflow".data)).2.double_overflow.isSome = true := by
  refine ⟨by decide, by decide, by decide, by decide⟩

/-- Claim C4: `oversize_length 1024, some_other_param 360` fails with
the UnrecognizedOption (`Verify`) kind, carrying as context the
unconsumed remainder beginning at the unrecognized clause
`some_other_param 360` (preceded by the separator space that the
failing iteration had not yet consumed when it reported `rest`). -/
theorem c4_unrecognized_option_remainder :
    asn1_parse_rule ("oversize_length 1024, some_other_param 360".data) =
      .error ((' ' :: "some_other_param 360".data), .verify) := by
  decide

/-- Claim C5: clauses joined by a single space, a single comma, a comma
followed by whitespace, or newline plus tab all parse to the same
Options value as the canonically single-space-separated rendering; in
particular the mixed-separator example
`double_overflow, oversize_length 1024 absolute_offset 10,\n bitstring_overflow`
parses to `double_overflow = true`, `bitstring_overflow = true`,
`oversize_length = 1024`, `absolute_offset = 10`, all other fields at
their defaults. -/
theorem c5_separator_flexibility (cs : List Clause)
    (hwf : cs.all clauseWF = true) :
    asn1_parse_rule (joinSep (",".data) cs) =
      asn1_parse_rule (joinSep (" ".data) cs) ∧
    asn1_parse_rule (joinSep (", ".data) cs) =
      asn1_parse_rule (joinSep (" ".data) cs) ∧
    asn1_parse_rule (joinSep ("\n\t".data) cs) =
      asn1_parse_rule (joinSep (" ".data) cs) ∧
    asn1_parse_rule ("double_overflow, oversize_length 1024 absolute_offset 10,\n bitstring_overflow".data) =
      .ok ([], { bitstring_overflow := true, double_overflow := true,
                 oversize_length := some 1024, absolute_offset := some 10,
                 relative_offset := none, max_frames := 30 }) := by
  refine ⟨?_, ?_, ?_, by decide⟩
  · cases cs with
    | nil => rfl
    | cons c cs' =>
      rw [asn1_parse_join (",".data) (Or.inr (Or.inl rfl)) (c :: cs') (by simp) hwf,
        asn1_parse_join (" ".data) (Or.inl rfl) (c :: cs') (by simp) hwf]
  · cases cs with
    | nil => rfl
    | cons c cs' =>
      rw [asn1_parse_join (", ".data) (Or.inr (Or.inr (Or.inl rfl))) (c :: cs') (by simp) hwf,
        asn1_parse_join (" ".data) (Or.inl rfl) (c :: cs') (by simp) hwf]
  · cases cs with
    | nil => rfl
    | cons c cs' =>
      rw [asn1_parse_join ("\n\t".data) (Or.inr (Or.inr (Or.inr rfl))) (c :: cs') (by simp) hwf,
        asn1_parse_join (" ".data) (Or.inl rfl) (c :: cs') (by simp) hwf]

/-- Witness for C5 at the clause list
`[oversize_length 7, bitstring_overflow]`. -/
theorem c5_separator_flexibility_witness :
    ([Clause.oversize ['7'], Clause.bitstring].all clauseWF = true) ∧
    (asn1_parse_rule (joinSep (",".data) [Clause.oversize ['7'], Clause.bitstring]) =
      asn1_parse_rule (joinSep (" ".data) [Clause.oversize ['7'], Clause.bitstring]) ∧
    asn1_parse_rule (joinSep (", ".data) [Clause.oversize ['7'], Clause.bitstring]) =
      asn1_parse_rule (joinSep (" ".data) [Clause.oversize ['7'], Clause.bitstring]) ∧
    asn1_parse_rule (joinSep ("\n\t".data) [Clause.oversize ['7'], Clause.bitstring]) =
      asn1_parse_rule (joinSep (" ".data) [Clause.oversize ['7'], Clause.bitstring]) ∧
    asn1_parse_rule ("double_overflow, oversize_length 1024 absolute_offset 10,\n bitstring_overflow".data) =
      .ok ([], { bitstring_overflow := true, double_overflow := true,
                 oversize_length := some 1024, absolute_offset := some 10,
                 relative_offset := none, max_frames := 30 })) :=
  ⟨by decide, c5_separator_flexibility [Clause.oversize ['7'], Clause.bitstring] (by decide)⟩

/-- Claim C6: `oversize_length 1024 absolute_offset 10` and
`absolute_offset 10 oversize_length 1024` both succeed and produce
field-for-field identical Options values (`oversize_length = 1024`,
`absolute_offset = 10`, every other field at its default). -/
theorem c6_order_independence :
    asn1_parse_rule ("oversize_length 1024 absolute_offset 10".data) =
      .ok ([], { bitstring_overflow := false, double_overflow := false,
                 oversize_length := some 1024, absolute_offset := some 10,
                 relative_offset := none, max_frames := 30 }) ∧
    asn1_parse_rule ("absolute_offset 10 oversize_length 1024".data) =
      .ok ([], { bitstring_overflow := false, double_overflow := false,
                 oversize_length := some 1024, absolute_offset := some 10,
                 relative_offset := none, max_frames := 30 }) := by
  constructor
  · decide
  · decide

/-- Claim C7: any nonempty well-formed clause sequence — duplicated
keywords included — parses successfully (never an error), and every
field of the result holds the value contributed by the last occurrence
of its keyword (`lastOcc`), flags being set when their keyword occurs
at all. -/
theorem c7_duplicate_keywords_last_wins (cs : List Clause) (hne : cs ≠ [])
    (hwf : cs.all clauseWF = true) :
    asn1_parse_rule (joinSep (" ".data) cs) =
      .ok ([], applyAll DetectAsn1Data.default cs) ∧
    (applyAll DetectAsn1Data.default cs).oversize_length =
      lastOcc (fun c => (olOf c).map Prod.snd) cs ∧
    (applyAll DetectAsn1Data.default cs).absolute_offset =
      lastOcc (fun c => (aoOf c).map Prod.snd) cs ∧
    (applyAll DetectAsn1Data.default cs).relative_offset =
      lastOcc (fun c => (roOf c).map Prod.snd) cs ∧
    (applyAll DetectAsn1Data.default cs).bitstring_overflow =
      cs.contains Clause.bitstring ∧
    (applyAll DetectAsn1Data.default cs).double_overflow =
      cs.contains Clause.double := by
  refine ⟨asn1_parse_join (" ".data) (Or.inl rfl) cs hne hwf, ?_, ?_, ?_, ?_, ?_⟩
  · rw [applyAll_oversize]
    cases lastOcc (fun c => (olOf c).map Prod.snd) cs <;> rfl
  · rw [applyAll_absolute]
    cases lastOcc (fun c => (aoOf c).map Prod.snd) cs <;> rfl
  · rw [applyAll_relative]
    cases lastOcc (fun c => (roOf c).map Prod.snd) cs <;> rfl
  · rw [applyAll_bitstring]
    rfl
  · rw [applyAll_double]
    rfl

/-- Witness for C7 at `oversize_length 1 oversize_length 2`: the parse
succeeds and the `oversize_length` field holds the last value, 2. -/
theorem c7_duplicate_keywords_last_wins_witness :
    ([Clause.oversize ['1'], Clause.oversize ['2']] : List Clause) ≠ [] ∧
    ([Clause.oversize ['1'], Clause.oversize ['2']].all clauseWF = true) ∧
    (asn1_parse_rule (joinSep (" ".data) [Clause.oversize ['1'], Clause.oversize ['2']]) =
      .ok ([], applyAll DetectAsn1Data.default [Clause.oversize ['1'], Clause.oversize ['2']]) ∧
    (applyAll DetectAsn1Data.default [Clause.oversize ['1'], Clause.oversize ['2']]).oversize_length =
      lastOcc (fun c => (olOf c).map Prod.snd) [Clause.oversize ['1'], Clause.oversize ['2']] ∧
    (applyAll DetectAsn1Data.default [Clause.oversize ['1'], Clause.oversize ['2']]).absolute_offset =
      lastOcc (fun c => (aoOf c).map Prod.snd) [Clause.oversize ['1'], Clause.oversize ['2']] ∧
    (applyAll DetectAsn1Data.default [Clause.oversize ['1'], Clause.oversize ['2']]).relative_offset =
      lastOcc (fun c => (roOf c).map Prod.snd) [Clause.oversize ['1'], Clause.oversize ['2']] ∧
    (applyAll DetectAsn1Data.default [Clause.oversize ['1'], Clause.oversize ['2']]).bitstring_overflow =
      [Clause.oversize ['1'], Clause.oversize ['2']].contains Clause.bitstring ∧
    (applyAll DetectAsn1Data.default [Clause.oversize ['1'], Clause.oversize ['2']]).double_overflow =
      [Clause.oversize ['1'], Clause.oversize ['2']].contains Clause.double) :=
  ⟨by decide, by decide,
    c7_duplicate_keywords_last_wins [Clause.oversize ['1'], Clause.oversize ['2']]
      (by decide) (by decide)⟩

/-- Claim C8 (external provider modelled from the spec as an explicit
oracle): whenever the clause grammar succeeds, the boundary adapter
queries the provider under the fixed key `asn1-max-frames`; if a value
is present and parses as an unsigned integer in `[0, 65535]` it
replaces `max_frames`, and in every other case (key absent, or value
not parsing in range) the parse still succeeds with `max_frames` at the
default 30 — the override failure path is non-fatal. -/
theorem c8_max_frames_override (conf : ConfProvider) (s rest : List Char)
    (data : DetectAsn1Data) (h : asn1_parse_rule s = .ok (rest, data)) :
    data.max_frames = 30 ∧
    (∀ v n, conf ("asn1-max-frames".data) = some v → parseRustU16 v = some n →
      rs_detect_asn1_parse conf (some s) = some { data with max_frames := n } ∧
      n ≤ 65535) ∧
    (conf ("asn1-max-frames".data) = none →
      rs_detect_asn1_parse conf (some s) = some data) ∧
    (∀ v, conf ("asn1-max-frames".data) = some v → parseRustU16 v = none →
      rs_detect_asn1_parse conf (some s) = some data) := by
  refine ⟨asn1_parse_max_frames s rest data h, ?_, ?_, ?_⟩
  · intro v n hv hn
    refine ⟨?_, parseRustU16_le v n hn⟩
    simp only [rs_detect_asn1_parse, h, hv, hn]
  · intro hv
    simp only [rs_detect_asn1_parse, h, hv]
  · intro v hv hn
    simp only [rs_detect_asn1_parse, h, hv, hn]

/-- Witness for C8 with a provider that has no `asn1-max-frames` entry
and the input `bitstring_overflow`. -/
theorem c8_max_frames_override_witness :
    (asn1_parse_rule ("bitstring_overflow".data) =
      .ok ([], { bitstring_overflow := true, double_overflow := false,
                 oversize_length := none, absolute_offset := none,
                 relative_offset := none, max_frames := 30 })) ∧
    (({ bitstring_overflow := true, double_overflow := false,
        oversize_length := none, absolute_offset := none,
        relative_offset := none, max_frames := 30 } : DetectAsn1Data).max_frames = 30 ∧
    (∀ v n, (fun _ => none : ConfProvider) ("asn1-max-frames".data) = some v →
      parseRustU16 v = some n →
      rs_detect_asn1_parse (fun _ => none) (some ("bitstring_overflow".data)) =
        some { ({ bitstring_overflow := true, double_overflow := false,
                  oversize_length := none, absolute_offset := none,
                  relative_offset := none, max_frames := 30 } : DetectAsn1Data) with
               max_frames := n } ∧
      n ≤ 65535) ∧
    ((fun _ => none : ConfProvider) ("asn1-max-frames".data) = none →
      rs_detect_asn1_parse (fun _ => none) (some ("bitstring_overflow".data)) =
        some { bitstring_overflow := true, double_overflow := false,
               oversize_length := none, absolute_offset := none,
               relative_offset := none, max_frames := 30 }) ∧
    (∀ v, (fun _ => none : ConfProvider) ("asn1-max-frames".data) = some v →
      parseRustU16 v = none →
      rs_detect_asn1_parse (fun _ => none) (some ("bitstring_overflow".data)) =
        some { bitstring_overflow := true, double_overflow := false,
               oversize_length := none, absolute_offset := none,
               relative_offset := none, max_frames := 30 })) :=
  ⟨by decide,
    c8_max_frames_override (fun _ => none) ("bitstring_overflow".data) []
      { bitstring_overflow := true, double_overflow := false,
        oversize_length := none, absolute_offset := none,
        relative_offset := none, max_frames := 30 } (by decide)⟩

/-- Claim C9: `asn1_parse_rule` on the empty input fails immediately
with the `Eof` (EmptyInput) kind — the early `is_empty` check fires
before any clause matching — so an Options value is never produced
from empty input. -/
theorem c9_empty_input :
    asn1_parse_rule [] = .error ([], .eof) := by
  decide

/-- Claim C10: `asn1_parse_rule`'s loop terminates with the number of
iterations bounded by the input length: giving the loop any fuel at
least `input.length` yields the very same result as fuel exactly
`input.length` (so at most `input.length` iterations ever run), and
any iteration whose tuple matches a clause strictly shortens the
remaining slice; an iteration that matches no clause fails terminally
by construction of `loopIter`. -/
theorem c10_loop_iterations_bounded (input next : List Char)
    (data : DetectAsn1Data) (fuel : Nat) (out : IterOut)
    (h : input.length ≤ fuel) :
    asn1_loopF fuel input data = asn1_loopF input.length input data ∧
    (iterStep input = (next, out) → clauseMatched out = true →
      next.length < input.length) := by
  constructor
  · exact asn1_loopF_fuel_irrelevant input.length fuel input.length input data
      le_rfl h le_rfl
  · intro hit hm
    have := iterStep_fst_lt input (by rw [hit]; exact hm)
    rwa [hit] at this

/-- Witness for C10 at the input `bitstring_overflow` with fuel 20. -/
theorem c10_loop_iterations_bounded_witness :
    ("bitstring_overflow".data.length ≤ 20) ∧
    (asn1_loopF 20 ("bitstring_overflow".data) DetectAsn1Data.default =
      asn1_loopF ("bitstring_overflow".data.length) ("bitstring_overflow".data)
        DetectAsn1Data.default ∧
    (iterStep ("bitstring_overflow".data) =
        ([], ⟨some [], some ("bitstring_overflow".data), none, none, none, none, none⟩) →
      clauseMatched ⟨some [], some ("bitstring_overflow".data), none, none, none, none, none⟩ = true →
      ([] : List Char).length < "bitstring_overflow".data.length)) :=
  ⟨by decide,
    c10_loop_iterations_bounded ("bitstring_overflow".data) []
      DetectAsn1Data.default 20
      ⟨some [], some ("bitstring_overflow".data), none, none, none, none, none⟩
      (by decide)⟩
